import Mathlib

/-!
Verification of the fan-out/fan-in research workflow of this repository.

The development shallowly embeds two parts of the code base:

* `src/document_comparison/src/document_analyzer.py`, method `get_analysis`:
  a bounded-retry loop around an external text-generation call
  (`RetryingInvoker` in the specification), and

* `src/financial_agent_crewai/main.py`, class `FinancialFlow`: a staged
  workflow (crewai `Flow`) with two root stages, three per-entity retrieval
  branches and a terminal synthesis stage
  (`WorkflowEngine` / `EntityFanoutRunner` / `CorpusAggregator` /
  `BranchController` in the specification).

External collaborators (the crews, the JSON/markdown table utilities, the
filename conversion helper, rendering) live outside `src/` and are modelled as
opaque parameters collected in `FlowEnv`.  File storage is modelled as an
association list from paths to string contents.  Python exceptions are
modelled by `Except`: an uncaught exception is an `.error` value, a caught one
is an ordinary control-flow branch.

The crewai engine semantics is modelled as a small-step scheduler over the
fixed stage graph declared by the `@start` / `@listen` / `and_` decorators of
`main.py`: a stage may run (atomically) once it has not yet run and all its
declared predecessors have completed; independent stages are otherwise
interleaved nondeterministically, matching the concurrent execution of
listener methods.
-/

namespace AIStarterKit

/-! ## Part 1: document_analyzer.get_analysis (lines 107-127) -/

/-- Result of a successful `self.llm.invoke(messages)` call: the content
string and the usage metadata (`response.response_metadata['usage']`,
abstracted to a number). -/
structure LLMResponse where
  content : String
  usage : Nat
deriving DecidableEq

/-- Observable outcome of one `get_analysis` call: the returned pair
`(completion, usage)` plus the instrumentation the claims talk about —
how many times the model was invoked and which sleeps were performed. -/
structure AnalysisOutcome where
  completion : String
  usage : Option Nat
  attempts : Nat
  sleeps : List Nat
deriving DecidableEq

/-- Degraded completion text built on retry exhaustion
(`The model endpoint returned the following error: ...`). -/
def degradedCompletion (errorMessage : String) : String :=
  "The model endpoint returned the following error: " ++ errorMessage

/-- State at exit of the `while retries < self.max_retries` loop. -/
structure LoopExit where
  success : Option LLMResponse
  lastError : String
  attempts : Nat
  sleeps : List Nat
deriving DecidableEq

/-- The retry loop of `get_analysis`.  `remaining` is
`max_retries - retries`; each failed attempt sleeps 10 time units and
records the error message, a successful attempt breaks out of the loop.
The invoker is indexed by the attempt number so that a different error can
be observed on every attempt. -/
def getAnalysisLoop (invoke : Nat → Except String LLMResponse) :
    Nat → Nat → String → List Nat → LoopExit
  | 0, attempts, err, sleeps => ⟨none, err, attempts, sleeps⟩
  | remaining + 1, attempts, err, sleeps =>
    match invoke attempts with
    | .ok resp => ⟨some resp, err, attempts + 1, sleeps⟩
    | .error e => getAnalysisLoop invoke remaining (attempts + 1) e (sleeps ++ [10])

/-- Embedding of `DocumentAnalyzer.get_analysis`.  The source's final test
`if retries == self.max_retries` is equivalent to no attempt having
succeeded, because a success breaks out of the loop while `retries` is still
strictly below `max_retries` (lemma `getAnalysisLoop_fail_spec` makes the
always-failing case explicit).  The function is total: exceptions of the
collaborator are caught inside the loop, so the caller always receives a
value. -/
def get_analysis (invoke : Nat → Except String LLMResponse) (max_retries : Nat) :
    AnalysisOutcome :=
  let exit := getAnalysisLoop invoke max_retries 0 "" []
  match exit.success with
  | some resp => ⟨resp.content.trim, some resp.usage, exit.attempts, exit.sleeps⟩
  | none => ⟨degradedCompletion exit.lastError, none, exit.attempts, exit.sleeps⟩

/-! ## Part 2: file storage model

File storage is an association list from paths to contents.  `fsAppend`
models opening a file in append mode (creates the file when absent),
`fsWrite` models a full overwrite, `fsRead` models reading the whole file
(`none` is a `FileNotFoundError` on a read-mode open), `fsErase` models
deleting the file. -/

/-- File storage: association list from path to content. -/
abbrev FS := List (String × String)

/-- Read a whole file; `none` models `FileNotFoundError`. -/
def fsRead : FS → String → Option String
  | [], _ => none
  | (q, c) :: rest, p => if q = p then some c else fsRead rest p

/-- Overwrite (or create) a file. -/
def fsWrite : FS → String → String → FS
  | [], p, c => [(p, c)]
  | (q, d) :: rest, p, c =>
    if q = p then (q, c) :: rest else (q, d) :: fsWrite rest p c

/-- Append to a file, creating it when absent (Python open mode `'a'`). -/
def fsAppend (fs : FS) (p c : String) : FS :=
  match fsRead fs p with
  | some old => fsWrite fs p (old ++ c)
  | none => fsWrite fs p c

/-- Delete a file (used to model clearing a stale corpus file). -/
def fsErase (fs : FS) (p : String) : FS :=
  fs.filter (fun kv => kv.1 ≠ p)

/-! ## Part 3: the financial workflow (main.py)

Python exceptions that `main.py` itself can raise are distinguished from
failures raised inside external collaborator calls, so that theorems about
a particular exception (for example the `AttributeError` on reading an
unassigned `self.is_comparison`) cannot be spoofed by a collaborator. -/

/-- Exceptions relevant to the embedded code. -/
inductive PyError
  | attributeError (name : String)
  | typeError (msg : String)
  | fileNotFoundError
  | externalError (msg : String)
deriving DecidableEq

/-- Lift a failure of an external collaborator into `PyError`. -/
def extCall {α : Type} : Except String α → Except PyError α
  | .ok a => .ok a
  | .error e => .error (.externalError e)

/-- One record of the `FilingsInputsList` produced by the sorting-hat crew:
per-entity company, ticker, period and originating sub-query. -/
structure FilingMetadata where
  company : String
  ticker_symbol : String
  year : String
  query : String
  start_date : String
  end_date : String
deriving DecidableEq

/-- Return value of the yfinance-stocks crew: the two output filenames
(`file_output_list[0]` text, `file_output_list[1]` JSON tables) together
with the contents the crew wrote to them (`none` when the crew completed
without producing that file). -/
structure StocksCrewOut where
  txtName : String
  jsonName : String
  txtWrite : Option String
  jsonWrite : Option String
deriving DecidableEq

/-- External collaborators of the workflow.  Every crew kickoff is an opaque
function of its structured input returning either a value or a raised
exception; side effects on file storage are represented by returned
contents.  `toTxt` is `convert_csv_source_to_txt_report_filename` and
`pathName` is `Path(...).name`, both utilities outside `src/`;
`tableMarkdown` composes `parse_table_str` and `dict_to_markdown_table`. -/
structure FlowEnv where
  toTxt : String → String
  pathName : String → String
  secCrew : FilingMetadata → Except String String
  ragCrew : String → String → Except String (Option String)
  contextCrew : String → String → Except String String
  newsCrew : String → Except String String
  stocksCrew : FilingMetadata → Except String StocksCrewOut
  parseJsonTables : String → Except String (List (String × String))
  tableMarkdown : String → String → String
  genericCrew : String → Except String String
  decompCrew : String → Except String (List String × Bool)
  sortingHatCrew : String → Except String (List FilingMetadata)
  reportCrew : String → Except String String
  summaryCrew : String → Except String String
  renderReport : List (String × String) → String → String
  convertPdf : String → Except String String

/-- The configured cache directory (`CACHE_DIR` of the config module, which
is outside `src/`; its concrete value is irrelevant). -/
def CACHE_DIR : String := "cache"

/-- The fixed comparison query of the config module (outside `src/`). -/
def COMPARISON_QUERY : String := "comparison-query"

/-- Path of the generic-research report (`CACHE_DIR / report_generic_search.txt`). -/
def genericReportName : String := CACHE_DIR ++ "/report_generic_search.txt"

/-- Path of the final Markdown report (`CACHE_DIR / report.md`). -/
def finalReportPath : String := CACHE_DIR ++ "/report.md"

/-- Corpus file of the SEC branch (`self.cache_path / comparison_sec_filings.txt`). -/
def secCorpusPath (cachePath : String) : String :=
  cachePath ++ "/comparison_sec_filings.txt"

/-- Corpus file of the news branch. -/
def newsCorpusPath (cachePath : String) : String :=
  cachePath ++ "/comparison_yfinance_news.txt"

/-- Corpus file of the stocks branch. -/
def stocksCorpusPath (cachePath : String) : String :=
  cachePath ++ "/comparison_yfinance_stocks.txt"

/-- Corpus entry written per entity by the SEC branch (delimiter, title line
with company and year, content, end delimiter). -/
def secEntryText (md : FilingMetadata) (content : String) : String :=
  "<start>---\n" ++ "Context for the company " ++ md.company ++ " and year " ++
    md.year ++ ".\n" ++ content ++ "\n<end>---\n\n"

/-- Corpus entry written per entity by the news and stocks branches
(delimiter, company title line, content, end delimiter). -/
def companyEntryText (md : FilingMetadata) (content : String) : String :=
  "<start>---\n" ++ md.company ++ "\n" ++ content ++ "\n<end>---\n"

/-- Observable result of one branch stage: the method's return value
(`none` models Python `None`), the file storage, the global report list and
a ghost flag recording whether the comparison (context-analysis) task was
invoked. -/
structure BranchOut where
  ret : Option (List String)
  fs : FS
  report_list : List String
  comparisonInvoked : Bool
deriving DecidableEq

/-- One iteration of the SEC branch's per-entity loop (main.py lines
199-242): kick off the SEC EDGAR crew (uncaught on failure), append the
converted report filename to the branch list, kick off the RAG crew
(uncaught on failure), then — inside the `try` block — read the report file
and append the delimited entry to the branch corpus; a missing report file
(`FileNotFoundError`) or any other exception there is caught and merely
logged, so the loop continues. -/
def secEntityStep (env : FlowEnv) (corpusPath : String)
    (acc : FS × List String) (md : FilingMetadata) :
    Except PyError (FS × List String) := do
  let (fs, reports) := acc
  let filename ← extCall (env.secCrew md)
  let reports := reports ++ [env.toTxt filename]
  let ragOut ← extCall (env.ragCrew filename md.query)
  let fs := match ragOut with
    | some c => fsWrite fs (env.toTxt filename) c
    | none => fs
  match fsRead fs (env.toTxt filename) with
  | none => pure (fs, reports)
  | some content => pure (fsAppend fs corpusPath (secEntryText md content), reports)

/-- The conditional comparison step and report-list extension closing the
enabled SEC branch (main.py lines 244-266), abstracted over the fold
result.  `self.is_comparison` is read only when more than one report
exists (Python short-circuit), and reading it unassigned (`none`) is an
`AttributeError`. -/
def secTail (env : FlowEnv) (isComparison : Option Bool) (cachePath : String)
    (reportList : List String) (folded : FS × List String) :
    Except PyError BranchOut :=
  let (fs, secReportsList) := folded
  let globalSecFilename := secCorpusPath cachePath
  (if secReportsList.length > 1 then
      match isComparison with
      | none => Except.error (PyError.attributeError "is_comparison")
      | some b =>
        if b then do
          let context ← match fsRead fs globalSecFilename with
            | none => Except.error PyError.fileNotFoundError
            | some c => pure c
          let compContent ← extCall (env.contextCrew context COMPARISON_QUERY)
          pure (fsWrite fs (env.toTxt globalSecFilename) compContent,
                secReportsList ++ [env.toTxt globalSecFilename], true)
        else pure (fs, secReportsList, false)
    else pure (fs, secReportsList, false)) >>= fun compStep =>
    let (fs2, outList, invoked) := compStep
    pure ⟨some outList, fs2, reportList ++ outList, invoked⟩

/-- Embedding of `FinancialFlow.sec_edgar` (main.py lines 191-268).
`isComparison` is `none` while `self.is_comparison` has never been
assigned; reading it then is an `AttributeError`.  A `none`
`metadataInputsList` models iterating over the Python `None` returned by a
skipped `information_extraction`. -/
def sec_edgar (env : FlowEnv) (sourceSecFilings : Bool) (isComparison : Option Bool)
    (metadataInputsList : Option (List FilingMetadata)) (cachePath : String)
    (fs : FS) (reportList : List String) : Except PyError BranchOut :=
  if sourceSecFilings then do
    let mds ← match metadataInputsList with
      | none => Except.error (PyError.typeError "NoneType object is not iterable")
      | some l => pure l
    let folded ← mds.foldlM (secEntityStep env (secCorpusPath cachePath)) (fs, [])
    secTail env isComparison cachePath reportList folded
  else pure ⟨none, fs, reportList, false⟩

/-- One iteration of the news branch's per-entity loop (main.py lines
278-319): news crew, RAG crew, append the handle, then the caught
read-and-append-to-corpus block. -/
def newsEntityStep (env : FlowEnv) (corpusPath : String)
    (acc : FS × List String) (md : FilingMetadata) :
    Except PyError (FS × List String) := do
  let (fs, reports) := acc
  let filename ← extCall (env.newsCrew md.ticker_symbol)
  let ragOut ← extCall (env.ragCrew filename md.query)
  let fs := match ragOut with
    | some c => fsWrite fs (env.toTxt filename) c
    | none => fs
  let reports := reports ++ [env.toTxt filename]
  match fsRead fs (env.toTxt filename) with
  | none => pure (fs, reports)
  | some content => pure (fsAppend fs corpusPath (companyEntryText md content), reports)

/-- The comparison step and report-list extension closing the enabled news
branch (main.py lines 321-344). -/
def newsTail (env : FlowEnv) (isComparison : Option Bool) (cachePath : String)
    (reportList : List String) (folded : FS × List String) :
    Except PyError BranchOut :=
  let (fs, newsReportsList) := folded
  let globalNewsFilename := newsCorpusPath cachePath
  (if newsReportsList.length > 1 then
      match isComparison with
      | none => Except.error (PyError.attributeError "is_comparison")
      | some b =>
        if b then do
          let context ← match fsRead fs globalNewsFilename with
            | none => Except.error PyError.fileNotFoundError
            | some c => pure c
          let compContent ← extCall (env.contextCrew context COMPARISON_QUERY)
          pure (fsWrite fs (env.toTxt globalNewsFilename) compContent,
                newsReportsList ++ [env.toTxt globalNewsFilename], true)
        else pure (fs, newsReportsList, false)
    else pure (fs, newsReportsList, false)) >>= fun compStep =>
    let (fs2, outList, invoked) := compStep
    pure ⟨some outList, fs2, reportList ++ outList, invoked⟩

/-- Embedding of `FinancialFlow.yfinance_news` (main.py lines 270-346).
On a disabled source flag it returns an empty Python list. -/
def yfinance_news (env : FlowEnv) (sourceYfinanceNews : Bool) (isComparison : Option Bool)
    (metadataInputsList : Option (List FilingMetadata)) (cachePath : String)
    (fs : FS) (reportList : List String) : Except PyError BranchOut :=
  if sourceYfinanceNews then do
    let mds ← match metadataInputsList with
      | none => Except.error (PyError.typeError "NoneType object is not iterable")
      | some l => pure l
    let folded ← mds.foldlM (newsEntityStep env (newsCorpusPath cachePath)) (fs, [])
    newsTail env isComparison cachePath reportList folded
  else pure ⟨some [], fs, reportList, false⟩

/-- Storage effect of the stocks crew kickoff: the crew writes its text and
JSON output files (when it produced them). -/
def stocksCrewWritesFS (fs : FS) (o : StocksCrewOut) : FS :=
  let fs1 := match o.txtWrite with
    | some c => fsWrite fs o.txtName c
    | none => fs
  match o.jsonWrite with
  | some c => fsWrite fs1 o.jsonName c
  | none => fs1

/-- Storage effect of appending the rendered data tables to the entity's
text report (main.py lines 381-398): begin marker, one markdown table per
JSON entry, end marker. -/
def stocksTablesFS (env : FlowEnv) (fs : FS) (o : StocksCrewOut)
    (tables : List (String × String)) : FS :=
  let fs1 := fsAppend fs o.txtName "\n\n<begin data tables>\n\n"
  let fs2 := tables.foldl
    (fun fs t => fsAppend fs o.txtName (env.tableMarkdown t.2 t.1 ++ "\n\n")) fs1
  fsAppend fs2 o.txtName "<end data tables>"

/-- One iteration of the stocks branch's per-entity loop (main.py lines
356-419): stocks crew returning a text and a JSON filename, append the
text handle, read the JSON tables (a missing JSON file here is an uncaught
`FileNotFoundError`), append the rendered tables to the text file, then the
caught read-and-append-to-corpus block. -/
def stocksEntityStep (env : FlowEnv) (corpusPath : String)
    (acc : FS × List String × List String) (md : FilingMetadata) :
    Except PyError (FS × List String × List String) := do
  let (fs, reports, jsons) := acc
  let out ← extCall (env.stocksCrew md)
  let fs := stocksCrewWritesFS fs out
  let reports := reports ++ [out.txtName]
  let jsons := jsons ++ [out.jsonName]
  let data ← match fsRead fs out.jsonName with
    | none => Except.error PyError.fileNotFoundError
    | some c => pure c
  let tables ← extCall (env.parseJsonTables data)
  let fs := stocksTablesFS env fs out tables
  match fsRead fs out.txtName with
  | none => pure (fs, reports, jsons)
  | some content =>
    pure (fsAppend fs corpusPath (companyEntryText md content), reports, jsons)

/-- The comparison step and report-list extension closing the enabled
stocks branch (main.py lines 421-441); the comparison output file is the
corpus file itself and the appended handle is the raw corpus path. -/
def stocksTail (env : FlowEnv) (isComparison : Option Bool) (cachePath : String)
    (reportList : List String) (folded : FS × List String × List String) :
    Except PyError BranchOut :=
  let (fs, stocksReportsList, _jsonList) := folded
  let globalStocksFilename := stocksCorpusPath cachePath
  (if stocksReportsList.length > 1 then
      match isComparison with
      | none => Except.error (PyError.attributeError "is_comparison")
      | some b =>
        if b then do
          let context ← match fsRead fs globalStocksFilename with
            | none => Except.error PyError.fileNotFoundError
            | some c => pure c
          let compContent ← extCall (env.contextCrew context COMPARISON_QUERY)
          pure (fsWrite fs globalStocksFilename compContent,
                stocksReportsList ++ [globalStocksFilename], true)
        else pure (fs, stocksReportsList, false)
    else pure (fs, stocksReportsList, false)) >>= fun compStep =>
    let (fs2, outList, invoked) := compStep
    pure ⟨some outList, fs2, reportList ++ outList, invoked⟩

/-- Embedding of `FinancialFlow.yfinance_stocks` (main.py lines 348-443).
Unlike the SEC branch, the comparison output file here is the corpus file
itself, and its raw name (no filename conversion) is appended as the
comparison handle. -/
def yfinance_stocks (env : FlowEnv) (sourceYfinanceStocks : Bool)
    (isComparison : Option Bool)
    (metadataInputsList : Option (List FilingMetadata)) (cachePath : String)
    (fs : FS) (reportList : List String) : Except PyError BranchOut :=
  if sourceYfinanceStocks then do
    let mds ← match metadataInputsList with
      | none => Except.error (PyError.typeError "NoneType object is not iterable")
      | some l => pure l
    let folded ← mds.foldlM (stocksEntityStep env (stocksCorpusPath cachePath)) (fs, [], [])
    stocksTail env isComparison cachePath reportList folded
  else pure ⟨some [], fs, reportList, false⟩

/-- Embedding of `FinancialFlow.generic_research` (main.py lines 130-147). -/
def generic_research (env : FlowEnv) (sourceGenericSearch : Bool) (query : String)
    (fs : FS) (reportList : List String) :
    Except PyError (Option String × FS × List String) :=
  if sourceGenericSearch then do
    let content ← extCall (env.genericCrew query)
    let fs := fsWrite fs genericReportName content
    pure (some genericReportName, fs, reportList ++ [genericReportName])
  else pure (none, fs, reportList)

/-- Return value of `query_decomposition`: the if-branch returns the plain
list `query_list.queries_list`, the else-branch returns a `SubQueriesList`
object. -/
inductive QDReturn
  | queriesList (l : List String)
  | subQueriesObject (l : List String) (is_comparison : Bool)
deriving DecidableEq

/-- Constructor arguments of `FinancialFlow`: the query and the four source
flags (Python `Optional[bool]` used only for truthiness, hence `Bool`
here), plus the cache path. -/
structure FlowConfig where
  query : String
  source_generic_search : Bool
  source_sec_filings : Bool
  source_yfinance_news : Bool
  source_yfinance_stocks : Bool
  cachePath : String

/-- The disjunction of the three branch flags guarding decomposition,
extraction and the decomposition else-branch. -/
def FlowConfig.orBranchFlags (cfg : FlowConfig) : Bool :=
  cfg.source_sec_filings || cfg.source_yfinance_news || cfg.source_yfinance_stocks

/-- Mutable run state of one `FinancialFlow` execution: file storage, the
append-only `self.report_list`, the `self.is_comparison` attribute (`none`
until first assigned), and the stored return values of the two stages whose
outputs are consumed by listeners. -/
structure FlowData where
  fs : FS
  report_list : List String
  is_comparison : Option Bool
  qdReturn : Option QDReturn
  ieReturn : Option (Option (List FilingMetadata))
deriving DecidableEq

/-- Initial run state (fresh `report_list`, no attributes assigned). -/
def initData (fs0 : FS) : FlowData := ⟨fs0, [], none, none, none⟩

/-- The stages of the flow, as declared in `main.py`. -/
inductive Stage
  | genericResearch
  | queryDecomposition
  | informationExtraction
  | secEdgar
  | yfinanceNews
  | yfinanceStocks
  | reportWriting
deriving DecidableEq

/-- The dependency sets declared by the decorators: `@start()` stages have
none, `@listen(x)` depends on `x`, and `report_writing` listens on
`and_(generic_research, sec_edgar, yfinance_news, yfinance_stocks)`
(main.py line 445). -/
def deps : Stage → List Stage
  | .genericResearch => []
  | .queryDecomposition => []
  | .informationExtraction => [.queryDecomposition]
  | .secEdgar => [.informationExtraction]
  | .yfinanceNews => [.informationExtraction]
  | .yfinanceStocks => [.informationExtraction]
  | .reportWriting =>
    [.genericResearch, .secEdgar, .yfinanceNews, .yfinanceStocks]

/-- Embedding of `FinancialFlow.report_writing` (main.py lines 445-501):
for every handle in `self.report_list`, in order, read the file (uncaught
`FileNotFoundError`), run the report crew into a section file and the
summarization crew into the summary mapping; then render the final report,
re-read it and convert it to PDF. -/
def report_writing (env : FlowEnv) (query : String) (reportList : List String)
    (fs : FS) : Except PyError FS := do
  let folded ← reportList.foldlM
    (fun (acc : FS × List (String × String)) report => do
      let (fs, summaries) := acc
      let reportTxt ← match fsRead fs report with
        | none => Except.error PyError.fileNotFoundError
        | some c => pure c
      let sectionFilename := CACHE_DIR ++ "/section_" ++ env.pathName report
      let sectionContent ← extCall (env.reportCrew reportTxt)
      let fs := fsWrite fs sectionFilename sectionContent
      let summary ← extCall (env.summaryCrew reportTxt)
      pure (fs, summaries ++ [(report, summary)]))
    (fs, [])
  let (fs, summaryList) := folded
  let fs := fsWrite fs finalReportPath (env.renderReport summaryList query)
  let mdContent ← match fsRead fs finalReportPath with
    | none => Except.error PyError.fileNotFoundError
    | some c => pure c
  let pdfData ← extCall (env.convertPdf mdContent)
  let fs := fsWrite fs (finalReportPath.replace "md" "pdf") pdfData
  pure fs

/-- Body of one stage, acting atomically on the run state.  The
decomposition stage assigns `self.is_comparison` only in its if-branch;
the extraction stage joins the sub-queries and runs the sorting-hat crew
only when some branch flag is set. -/
def runStage (env : FlowEnv) (cfg : FlowConfig) :
    Stage → FlowData → Except PyError FlowData
  | .genericResearch, st => do
    let out ← generic_research env cfg.source_generic_search cfg.query st.fs
      st.report_list
    let (_ret, fs, rl) := out
    pure { st with fs := fs, report_list := rl }
  | .queryDecomposition, st =>
    if cfg.orBranchFlags then do
      let out ← extCall (env.decompCrew cfg.query)
      pure { st with is_comparison := some out.2,
                     qdReturn := some (.queriesList out.1) }
    else
      pure { st with qdReturn := some (.subQueriesObject [cfg.query] false) }
  | .informationExtraction, st =>
    if cfg.orBranchFlags then do
      let queries ← match st.qdReturn with
        | some (.queriesList l) => pure l
        | some (.subQueriesObject _ _) =>
          Except.error (PyError.typeError "sequence item expected str instance")
        | none => Except.error (PyError.typeError "missing trigger payload")
      let entities ← extCall (env.sortingHatCrew (String.intercalate "." queries))
      pure { st with ieReturn := some (some entities) }
    else
      pure { st with ieReturn := some none }
  | .secEdgar, st =>
    match st.ieReturn with
    | none => Except.error (PyError.typeError "missing trigger payload")
    | some payload => do
      let r ← sec_edgar env cfg.source_sec_filings st.is_comparison payload
        cfg.cachePath st.fs st.report_list
      pure { st with fs := r.fs, report_list := r.report_list }
  | .yfinanceNews, st =>
    match st.ieReturn with
    | none => Except.error (PyError.typeError "missing trigger payload")
    | some payload => do
      let r ← yfinance_news env cfg.source_yfinance_news st.is_comparison payload
        cfg.cachePath st.fs st.report_list
      pure { st with fs := r.fs, report_list := r.report_list }
  | .yfinanceStocks, st =>
    match st.ieReturn with
    | none => Except.error (PyError.typeError "missing trigger payload")
    | some payload => do
      let r ← yfinance_stocks env cfg.source_yfinance_stocks st.is_comparison payload
        cfg.cachePath st.fs st.report_list
      pure { st with fs := r.fs, report_list := r.report_list }
  | .reportWriting, st => do
    let fs ← report_writing env cfg.query st.report_list st.fs
    pure { st with fs := fs }

/-- One scheduler step: a stage that has not yet run and whose declared
predecessors have all completed runs atomically; on success it is appended
to the completion list.  This is the crewai gating semantics for the
declared graph. -/
inductive FlowStep (env : FlowEnv) (cfg : FlowConfig) :
    List Stage × FlowData → Stage → List Stage × FlowData → Prop
  | mk {done : List Stage} {data data' : FlowData} {s : Stage}
      (hnot : s ∉ done) (hdeps : ∀ d ∈ deps s, d ∈ done)
      (hrun : runStage env cfg s data = .ok data') :
      FlowStep env cfg (done, data) s (done ++ [s], data')

/-- A run of the workflow: a sequence of scheduler steps.  Different
interleavings of independent stages give different traces, modelling the
concurrent execution of listener methods. -/
inductive FlowTrace (env : FlowEnv) (cfg : FlowConfig) :
    List Stage × FlowData → List Stage → List Stage × FlowData → Prop
  | nil (c : List Stage × FlowData) : FlowTrace env cfg c [] c
  | cons {c c' c'' : List Stage × FlowData} {s : Stage} {l : List Stage}
      (hstep : FlowStep env cfg c s c')
      (htail : FlowTrace env cfg c' l c'') :
      FlowTrace env cfg c (s :: l) c''

/-- Executable driver running a fixed schedule, used to build concrete
traces; `none` when a guard is violated or a stage raises. -/
def runSchedule (env : FlowEnv) (cfg : FlowConfig) :
    List Stage → List Stage × FlowData → Option (List Stage × FlowData)
  | [], c => some c
  | s :: rest, (done, data) =>
    if s ∈ done then none
    else if _h : ∀ d ∈ deps s, d ∈ done then
      match runStage env cfg s data with
      | .ok data' => runSchedule env cfg rest (done ++ [s], data')
      | .error _ => none
    else none

/-- Filename returned by the SEC EDGAR crew for an entity (junk value on a
crew failure; only used under the hypothesis that the crew succeeded). -/
def secCrewName (env : FlowEnv) (md : FilingMetadata) : String :=
  match env.secCrew md with
  | .ok f => f
  | .error _ => ""

/-- Report handle the SEC branch appends for an entity. -/
def secHandle (env : FlowEnv) (md : FilingMetadata) : String :=
  env.toTxt (secCrewName env md)

/-- Content the RAG crew writes to an entity's report file in the SEC
branch (junk value unless the crew succeeds with a write). -/
def secRagContent (env : FlowEnv) (md : FilingMetadata) : String :=
  match env.ragCrew (secCrewName env md) md.query with
  | .ok (some c) => c
  | _ => ""

/-- The SEC corpus text produced for an entity list, a function of the
environment and the entities only. -/
def secCorpusText (env : FlowEnv) : List FilingMetadata → String
  | [] => ""
  | md :: rest => secEntryText md (secRagContent env md) ++ secCorpusText env rest

/-- Text-report handle the stocks branch appends for an entity (junk value
on a crew failure). -/
def stocksTxtName (env : FlowEnv) (md : FilingMetadata) : String :=
  match env.stocksCrew md with
  | .ok o => o.txtName
  | .error _ => ""

/-- Filename returned by the news crew for an entity (junk value on a crew
failure). -/
def newsCrewName (env : FlowEnv) (md : FilingMetadata) : String :=
  match env.newsCrew md.ticker_symbol with
  | .ok f => f
  | .error _ => ""

/-- Report handle the news branch appends for an entity. -/
def newsHandle (env : FlowEnv) (md : FilingMetadata) : String :=
  env.toTxt (newsCrewName env md)

/-- The comparison block a branch appends: one converted corpus handle when
more than one entity artifact exists and the comparison flag is set,
nothing otherwise. -/
def secCompBlock (env : FlowEnv) (b : Bool) (mds : List FilingMetadata)
    (cachePath : String) : List String :=
  if 1 < mds.length ∧ b = true then [env.toTxt (secCorpusPath cachePath)] else []

/-- Comparison block of the stocks branch: the raw corpus path (the source
appends `global_yfinance_stocks_filename` without filename conversion). -/
def stocksCompBlock (b : Bool) (mds : List FilingMetadata)
    (cachePath : String) : List String :=
  if 1 < mds.length ∧ b = true then [stocksCorpusPath cachePath] else []

/-- File-storage effect of one successful iteration of the SEC branch's
per-entity loop (the tail of `secEntityStep` once both crews returned). -/
def secEntityFS (env : FlowEnv) (corpusPath : String) (fs : FS)
    (md : FilingMetadata) (fn : String) (ragOut : Option String) : FS :=
  let fs1 := match ragOut with
    | some c => fsWrite fs (env.toTxt fn) c
    | none => fs
  match fsRead fs1 (env.toTxt fn) with
  | none => fs1
  | some content => fsAppend fs1 corpusPath (secEntryText md content)

/-- File-storage effect of one successful iteration of the news branch's
per-entity loop (the tail of `newsEntityStep` once both crews returned). -/
def newsEntityFS (env : FlowEnv) (corpusPath : String) (fs : FS)
    (md : FilingMetadata) (fn : String) (ragOut : Option String) : FS :=
  let fs1 := match ragOut with
    | some c => fsWrite fs (env.toTxt fn) c
    | none => fs
  match fsRead fs1 (env.toTxt fn) with
  | none => fs1
  | some content => fsAppend fs1 corpusPath (companyEntryText md content)

/-- Concrete entity used by witnesses. -/
def mdA : FilingMetadata :=
  ⟨"CompA", "TCKA", "2023", "qA", "2023-01-01", "2023-12-31"⟩

/-- Second concrete entity used by witnesses. -/
def mdB : FilingMetadata :=
  ⟨"CompB", "TCKB", "2024", "qB", "2024-01-01", "2024-12-31"⟩

/-- A concrete environment whose collaborators all succeed, used to
instantiate witnesses. -/
def concreteEnv : FlowEnv where
  toTxt f := "txt_" ++ f
  pathName f := f
  secCrew md := .ok ("sec_" ++ md.company ++ ".csv")
  ragCrew f q := .ok (some ("rag content for " ++ f ++ " on " ++ q))
  contextCrew _ _ := .ok "comparison output"
  newsCrew t := .ok ("news_" ++ t ++ ".csv")
  stocksCrew md := .ok ⟨"stocks_" ++ md.company ++ ".txt",
    "stocks_" ++ md.company ++ ".json", some "stock report", some "json tables"⟩
  parseJsonTables _ := .ok []
  tableMarkdown t n := t ++ n
  genericCrew q := .ok ("generic research on " ++ q)
  decompCrew _ := .ok (["s1", "s2"], true)
  sortingHatCrew _ := .ok [mdA, mdB]
  reportCrew _ := .ok "section text"
  summaryCrew _ := .ok "summary text"
  renderReport _ _ := "final report"
  convertPdf _ := .ok "pdf bytes"

/-- Value extractor for runs known to complete. -/
def branchOutOf (x : Except PyError BranchOut) : BranchOut :=
  match x with
  | .ok r => r
  | .error _ => ⟨none, [], [], false⟩

/-- Concrete enabled SEC run with two entities and the comparison flag
set. -/
def c3SecRun : Except PyError BranchOut :=
  sec_edgar concreteEnv true (some true) (some [mdA, mdB]) "cache" [] []

/-- Concrete enabled stocks run with two entities and the comparison flag
set. -/
def c3StkRun : Except PyError BranchOut :=
  yfinance_stocks concreteEnv true (some true) (some [mdA, mdB]) "cache" [] []

/-- Environment whose SEC EDGAR crew raises for the first entity. -/
def c4FailEnv : FlowEnv :=
  { concreteEnv with
    secCrew := fun md =>
      if md.company = "CompA" then .error "sec crew boom"
      else .ok ("sec_" ++ md.company ++ ".csv") }

/-- Environment whose stocks crew produces no JSON tables file for the
first entity, so the uncaught JSON read raises. -/
def c4StkFailEnv : FlowEnv :=
  { concreteEnv with
    stocksCrew := fun md =>
      .ok ⟨"stocks_" ++ md.company ++ ".txt", "stocks_" ++ md.company ++ ".json",
        some "stock report",
        if md.company = "CompA" then none else some "json tables"⟩ }

/-- Environment whose RAG crew completes without writing the first
entity's report file (so reading it back raises the caught
`FileNotFoundError`). -/
def c4IsolationEnv : FlowEnv :=
  { concreteEnv with
    ragCrew := fun f q =>
      if f = "sec_CompA.csv" then .ok none
      else .ok (some ("rag content for " ++ f ++ " on " ++ q)) }

/-- Environment whose RAG crew never writes any report file. -/
def ragNoneEnv : FlowEnv :=
  { concreteEnv with ragCrew := fun _ _ => .ok none }

/-- First aggregation run for the idempotence claim: one entity, no
comparison, empty initial storage. -/
def c8Run1 : Except PyError BranchOut :=
  sec_edgar concreteEnv true (some false) (some [mdA]) "cache" [] []

/-- Second aggregation run, re-run on the storage left by the first run
(the corpus file has not been cleared). -/
def c8Run2 : Except PyError BranchOut :=
  sec_edgar concreteEnv true (some false) (some [mdA]) "cache"
    (branchOutOf c8Run1).fs []

/-- An unrelated starting storage with no corpus file, for the
byte-identical re-run. -/
def c8fsB : FS := [("unrelated.txt", "unrelated content")]

/-- Aggregation run from the unrelated starting storage. -/
def c8RunB : Except PyError BranchOut :=
  sec_edgar concreteEnv true (some false) (some [mdA]) "cache" c8fsB []

/-- The corpus entry the first run writes for `mdA`. -/
def c8Entry : String :=
  secEntryText mdA "rag content for sec_CompA.csv on qA"

/-- A configuration with all four source flags off (the degenerate but
non-failing run of the specification). -/
def allOffCfg : FlowConfig := ⟨"the query", false, false, false, false, "cache"⟩

/-- A complete schedule running every stage once, respecting the declared
dependencies, with the synthesis stage last. -/
def fullSchedule : List Stage :=
  [.genericResearch, .queryDecomposition, .informationExtraction,
   .secEdgar, .yfinanceNews, .yfinanceStocks, .reportWriting]

/-- Final configuration of the all-flags-off run. -/
def c1Final : List Stage × FlowData :=
  (runSchedule concreteEnv allOffCfg fullSchedule ([], initData [])).getD
    ([], initData [])

/-- Configuration enabling the SEC and news branches only. -/
def c6Cfg : FlowConfig := ⟨"q", false, true, true, false, "cache"⟩

/-- Environment for the ordering run: one entity, no comparison. -/
def c6Env : FlowEnv :=
  { concreteEnv with
    decompCrew := fun _ => .ok (["s1"], false),
    sortingHatCrew := fun _ => .ok [mdA] }

/-- A legal schedule in which the news branch completes before the SEC
branch. -/
def c6Schedule : List Stage :=
  [.queryDecomposition, .informationExtraction, .yfinanceNews, .secEdgar,
   .genericResearch, .yfinanceStocks, .reportWriting]

/-- Final configuration of the news-before-SEC run. -/
def c6Final : List Stage × FlowData :=
  (runSchedule c6Env c6Cfg c6Schedule ([], initData [])).getD
    ([], initData [])

/-- Configuration reached after decomposition and extraction in the
ordering run. -/
def c6Mid : List Stage × FlowData :=
  (runSchedule c6Env c6Cfg [.queryDecomposition, .informationExtraction]
      ([], initData [])).getD ([], initData [])

/-- Value extractor for stage runs known to complete. -/
def flowDataOf (x : Except PyError FlowData) : FlowData :=
  match x with
  | .ok d => d
  | .error _ => initData []

/-- Run state after the SEC stage fires from `c6Mid`. -/
def c6SecOut : FlowData :=
  flowDataOf (runStage c6Env c6Cfg .secEdgar c6Mid.2)

/-- Reachability invariant of the workflow: the completed-stage set is
closed under dependencies; once decomposition has completed with some
branch flag set, `self.is_comparison` is assigned; once extraction has
completed, its return value is stored, and it is an entity list when some
branch flag is set. -/
def FlowInv (cfg : FlowConfig) (c : List Stage × FlowData) : Prop :=
  (∀ s ∈ c.1, ∀ d ∈ deps s, d ∈ c.1) ∧
  (Stage.queryDecomposition ∈ c.1 → cfg.orBranchFlags = true →
    ∃ bb, c.2.is_comparison = some bb) ∧
  (Stage.informationExtraction ∈ c.1 →
    ∃ p, c.2.ieReturn = some p ∧
      (cfg.orBranchFlags = true → ∃ l, p = some l))

end AIStarterKit

namespace AIStarterKit

/-! ## Theorems -/

/-- Under an always-failing invoker the loop performs exactly `remaining`
further attempts, sleeps 10 units after each, and ends with the error
message of the last attempt. -/
theorem getAnalysisLoop_fail_spec (errs : Nat → String)
    (invoke : Nat → Except String LLMResponse)
    (hfail : ∀ i, invoke i = .error (errs i)) :
    ∀ remaining attempts err sleeps,
      getAnalysisLoop invoke remaining attempts err sleeps =
        ⟨none, if remaining = 0 then err else errs (attempts + remaining - 1),
         attempts + remaining, sleeps ++ List.replicate remaining 10⟩ := by
  intro remaining
  induction remaining with
  | zero => intro attempts err sleeps; simp [getAnalysisLoop]
  | succ n ih =>
    intro attempts err sleeps
    have hstep : getAnalysisLoop invoke (n + 1) attempts err sleeps =
        getAnalysisLoop invoke n (attempts + 1) (errs attempts) (sleeps ++ [10]) := by
      rw [getAnalysisLoop, hfail attempts]
    rw [hstep, ih]
    have hidx : (if n = 0 then errs attempts else errs (attempts + 1 + n - 1)) =
        (if n + 1 = 0 then err else errs (attempts + (n + 1) - 1)) := by
      rw [if_neg (Nat.succ_ne_zero n)]
      rcases Nat.eq_zero_or_pos n with h0 | hpos
      · subst h0; norm_num
      · rw [if_neg (Nat.pos_iff_ne_zero.mp hpos)]
        congr 1
        omega
    have hsl : sleeps ++ [10] ++ List.replicate n 10 =
        sleeps ++ List.replicate (n + 1) 10 := by
      rw [List.append_assoc]
      congr 1
    rw [hidx, hsl]
    have hat : attempts + 1 + n = attempts + (n + 1) := by omega
    rw [hat]

theorem fsRead_fsWrite_self (fs : FS) (p c : String) :
    fsRead (fsWrite fs p c) p = some c := by
  induction fs with
  | nil => simp [fsWrite, fsRead]
  | cons kv rest ih =>
    obtain ⟨q, d⟩ := kv
    by_cases h : q = p
    · simp [fsWrite, h, fsRead]
    · simp [fsWrite, h, fsRead, ih]

theorem fsRead_fsWrite_ne (fs : FS) (p c q : String) (h : q ≠ p) :
    fsRead (fsWrite fs p c) q = fsRead fs q := by
  induction fs with
  | nil => simp [fsWrite, fsRead, Ne.symm h]
  | cons kv rest ih =>
    obtain ⟨r, d⟩ := kv
    by_cases hr : r = p
    · subst hr
      simp [fsWrite, fsRead, Ne.symm h]
    · simp only [fsWrite, if_neg hr, fsRead]
      by_cases hq : r = q
      · simp [hq]
      · simp [hq, ih]

theorem fsRead_fsAppend_self (fs : FS) (p c : String) :
    fsRead (fsAppend fs p c) p = some ((fsRead fs p).getD "" ++ c) := by
  unfold fsAppend
  cases h : fsRead fs p with
  | none => simp [fsRead_fsWrite_self, h]
  | some old => simp [fsRead_fsWrite_self, h]

theorem fsRead_fsAppend_ne (fs : FS) (p c q : String) (h : q ≠ p) :
    fsRead (fsAppend fs p c) q = fsRead fs q := by
  unfold fsAppend
  cases fsRead fs p <;> simp [fsRead_fsWrite_ne _ _ _ _ h]

theorem except_bind_ok {ε α β : Type} (a : α) (f : α → Except ε β) :
    (Except.ok a : Except ε α) >>= f = f a := rfl

theorem except_bind_error {ε α β : Type} (e : ε) (f : α → Except ε β) :
    (Except.error e : Except ε α) >>= f = Except.error e := rfl

theorem except_pure {ε α : Type} (a : α) :
    (pure a : Except ε α) = Except.ok a := rfl

/-- A successful SEC per-entity iteration appends exactly the converted
crew filename to the branch list and transforms storage by `secEntityFS`. -/
theorem secEntityStep_ok (env : FlowEnv) (corpusPath : String)
    (fs : FS) (reports : List String) (md : FilingMetadata)
    (fn : String) (ragOut : Option String)
    (hc : env.secCrew md = .ok fn) (hr : env.ragCrew fn md.query = .ok ragOut) :
    secEntityStep env corpusPath (fs, reports) md =
      .ok (secEntityFS env corpusPath fs md fn ragOut, reports ++ [env.toTxt fn]) := by
  simp only [secEntityStep, extCall, hc, except_bind_ok, hr, secEntityFS]
  cases ragOut with
  | none => cases fsRead fs (env.toTxt fn) <;> rfl
  | some c => cases fsRead (fsWrite fs (env.toTxt fn) c) (env.toTxt fn) <;> rfl

/-- A failing SEC EDGAR crew aborts the whole iteration (the call is not
inside the `try` block). -/
theorem secEntityStep_crew_error (env : FlowEnv) (corpusPath : String)
    (fs : FS) (reports : List String) (md : FilingMetadata) (e : String)
    (hc : env.secCrew md = .error e) :
    secEntityStep env corpusPath (fs, reports) md =
      .error (.externalError e) := by
  simp only [secEntityStep, extCall, hc, except_bind_error]

/-- A failing RAG crew likewise aborts the iteration. -/
theorem secEntityStep_rag_error (env : FlowEnv) (corpusPath : String)
    (fs : FS) (reports : List String) (md : FilingMetadata)
    (fn : String) (e : String)
    (hc : env.secCrew md = .ok fn) (hr : env.ragCrew fn md.query = .error e) :
    secEntityStep env corpusPath (fs, reports) md =
      .error (.externalError e) := by
  simp only [secEntityStep, extCall, hc, except_bind_ok, hr, except_bind_error]

/-- Whatever storage does, a completed SEC fan-out appends exactly one
handle per entity, in entity-input order. -/
theorem sec_fold_reports (env : FlowEnv) (corpusPath : String) :
    ∀ (mds : List FilingMetadata) (fs : FS) (reports : List String)
      (fs' : FS) (reports' : List String),
      mds.foldlM (secEntityStep env corpusPath) (fs, reports) = .ok (fs', reports') →
      reports' = reports ++ mds.map (secHandle env) := by
  intro mds
  induction mds with
  | nil =>
    intro fs reports fs' reports' h
    simp only [List.foldlM] at h
    cases h
    simp
  | cons md rest ih =>
    intro fs reports fs' reports' h
    simp only [List.foldlM] at h
    cases hc : env.secCrew md with
    | error e =>
      rw [secEntityStep_crew_error env corpusPath fs reports md e hc,
        except_bind_error] at h
      exact Except.noConfusion h
    | ok fn =>
      cases hr : env.ragCrew fn md.query with
      | error e =>
        rw [secEntityStep_rag_error env corpusPath fs reports md fn e hc hr,
          except_bind_error] at h
        exact Except.noConfusion h
      | ok ragOut =>
        rw [secEntityStep_ok env corpusPath fs reports md fn ragOut hc hr,
          except_bind_ok] at h
        have := ih _ _ _ _ h
        rw [this, List.map_cons, List.append_assoc]
        congr 1
        simp [secHandle, secCrewName, hc]

/-- With total crews (every kickoff returns a value), the SEC fan-out
completes for every entity list and every storage state: a missing or
unreadable report file for one entity is caught inside its iteration and
the remaining entities are still processed, each contributing its
handle. -/
theorem sec_fold_total (env : FlowEnv) (corpusPath : String)
    (hsec : ∀ md, ∃ fn, env.secCrew md = .ok fn)
    (hrag : ∀ f q, ∃ o, env.ragCrew f q = .ok o) :
    ∀ (mds : List FilingMetadata) (fs : FS) (reports : List String),
      ∃ fs', mds.foldlM (secEntityStep env corpusPath) (fs, reports) =
        .ok (fs', reports ++ mds.map (secHandle env)) := by
  intro mds
  induction mds with
  | nil => intro fs reports; exact ⟨fs, by simp [List.foldlM, except_pure]⟩
  | cons md rest ih =>
    intro fs reports
    obtain ⟨fn, hc⟩ := hsec md
    obtain ⟨o, hr⟩ := hrag fn md.query
    obtain ⟨fs', hfold⟩ :=
      ih (secEntityFS env corpusPath fs md fn o) (reports ++ [env.toTxt fn])
    refine ⟨fs', ?_⟩
    simp only [List.foldlM, secEntityStep_ok env corpusPath fs reports md fn o hc hr,
      except_bind_ok]
    rw [hfold]
    have hh : secHandle env md = env.toTxt fn := by simp [secHandle, secCrewName, hc]
    simp [hh]

/-- When every entity's crews succeed and every RAG call writes the report
file, a completed SEC fan-out appends exactly the per-entity delimited
entries to the branch corpus file, in entity order: the corpus content is a
function of the environment and the entities, with the previous corpus
content (if any) as a prefix. -/
theorem sec_fold_corpus (env : FlowEnv) (corpusPath : String)
    (hsep : ∀ f, env.toTxt f ≠ corpusPath) :
    ∀ (mds : List FilingMetadata),
      (∀ md ∈ mds, ∃ fn, env.secCrew md = .ok fn) →
      (∀ md ∈ mds, ∃ c, env.ragCrew (secCrewName env md) md.query = .ok (some c)) →
      ∀ (fs : FS) (reports : List String),
      ∃ fs', mds.foldlM (secEntityStep env corpusPath) (fs, reports) =
          .ok (fs', reports ++ mds.map (secHandle env)) ∧
        fsRead fs' corpusPath = (if mds.isEmpty then fsRead fs corpusPath
          else some ((fsRead fs corpusPath).getD "" ++ secCorpusText env mds)) := by
  intro mds
  induction mds with
  | nil =>
    intro _ _ fs reports
    exact ⟨fs, by simp [List.foldlM, except_pure], by simp [List.isEmpty]⟩
  | cons md rest ih =>
    intro hsec hrag fs reports
    obtain ⟨fn, hc⟩ := hsec md (by simp)
    obtain ⟨c, hr⟩ := hrag md (by simp)
    have hname : secCrewName env md = fn := by simp [secCrewName, hc]
    rw [hname] at hr
    have hstep := secEntityStep_ok env corpusPath fs reports md fn (some c) hc hr
    have hcontent : secRagContent env md = c := by
      simp [secRagContent, hname, hr]
    have hfs1read : fsRead (secEntityFS env corpusPath fs md fn (some c)) corpusPath =
        some ((fsRead fs corpusPath).getD "" ++ secEntryText md c) := by
      simp only [secEntityFS, fsRead_fsWrite_self]
      rw [fsRead_fsAppend_self, fsRead_fsWrite_ne _ _ _ _ (Ne.symm (hsep fn))]
    obtain ⟨fs', hfold, hread⟩ := ih (fun m hm => hsec m (by simp [hm]))
      (fun m hm => hrag m (by simp [hm]))
      (secEntityFS env corpusPath fs md fn (some c)) (reports ++ [env.toTxt fn])
    refine ⟨fs', ?_, ?_⟩
    · simp only [List.foldlM, hstep, except_bind_ok]
      rw [hfold]
      have hh : secHandle env md = env.toTxt fn := by simp [secHandle, hname]
      simp [hh]
    · rw [hread]
      cases rest with
      | nil =>
        have htext : secCorpusText env [md] = secEntryText md c := by
          rw [secCorpusText, secCorpusText, hcontent, String.append_empty]
        simp [hfs1read, htext]
      | cons md2 rest2 =>
        simp [hfs1read, secCorpusText, hcontent, String.append_assoc]

/-- The enabled SEC branch is the fan-out fold followed by `secTail`. -/
theorem sec_edgar_true_eq (env : FlowEnv) (isC : Option Bool)
    (mds : List FilingMetadata)
    (cachePath : String) (fs : FS) (reportList : List String) :
    sec_edgar env true isC (some mds) cachePath fs reportList =
      mds.foldlM (secEntityStep env (secCorpusPath cachePath)) (fs, []) >>=
        secTail env isC cachePath reportList := rfl

/-- The enabled news branch is the fan-out fold followed by `newsTail`. -/
theorem yfinance_news_true_eq (env : FlowEnv) (isC : Option Bool)
    (mds : List FilingMetadata)
    (cachePath : String) (fs : FS) (reportList : List String) :
    yfinance_news env true isC (some mds) cachePath fs reportList =
      mds.foldlM (newsEntityStep env (newsCorpusPath cachePath)) (fs, []) >>=
        newsTail env isC cachePath reportList := rfl

/-- The enabled stocks branch is the fan-out fold followed by
`stocksTail`. -/
theorem yfinance_stocks_true_eq (env : FlowEnv) (isC : Option Bool)
    (mds : List FilingMetadata)
    (cachePath : String) (fs : FS) (reportList : List String) :
    yfinance_stocks env true isC (some mds) cachePath fs reportList =
      mds.foldlM (stocksEntityStep env (stocksCorpusPath cachePath)) (fs, [], []) >>=
        stocksTail env isC cachePath reportList := rfl

/-- Complete behaviour of `secTail` on an assigned comparison flag: the
comparison task appends exactly one corpus handle precisely when more than
one entity report exists and the flag is true. -/
theorem secTail_ok_spec (env : FlowEnv) (b : Bool) (cachePath : String)
    (reportList : List String) (fs1 : FS) (list1 : List String) (r : BranchOut)
    (h : secTail env (some b) cachePath reportList (fs1, list1) = .ok r) :
    r.ret = some (list1 ++
      (if 1 < list1.length ∧ b = true
        then [env.toTxt (secCorpusPath cachePath)] else [])) ∧
    r.report_list = reportList ++ list1 ++
      (if 1 < list1.length ∧ b = true
        then [env.toTxt (secCorpusPath cachePath)] else []) ∧
    (r.comparisonInvoked = true ↔ (1 < list1.length ∧ b = true)) := by
  unfold secTail at h
  by_cases hlen : list1.length > 1
  · cases b with
    | false =>
      simp only [if_pos hlen, Bool.false_eq_true, if_false, except_pure,
        except_bind_ok] at h
      rw [Except.ok.injEq] at h
      subst h
      have hcond : ¬(1 < list1.length ∧ false = true) := by simp
      simp [if_neg hcond]
    | true =>
      simp only [if_pos hlen, if_true] at h
      cases hfsr : fsRead fs1 (secCorpusPath cachePath) with
      | none => simp [hfsr, except_bind_error] at h
      | some ctx =>
        cases hcc : env.contextCrew ctx COMPARISON_QUERY with
        | error e => simp [hfsr, hcc, extCall, except_bind_error] at h
        | ok cc =>
          simp only [hfsr, hcc, extCall, except_pure, except_bind_ok] at h
          rw [Except.ok.injEq] at h
          subst h
          have hcond : 1 < list1.length ∧ true = true := ⟨hlen, rfl⟩
          simp [if_pos hcond, hlen]
  · simp only [if_neg hlen, except_pure, except_bind_ok] at h
    rw [Except.ok.injEq] at h
    subst h
    have hcond : ¬(1 < list1.length ∧ b = true) := fun hx => hlen hx.1
    simp [if_neg hcond, hlen]

/-- Complete behaviour of `stocksTail` on an assigned comparison flag; the
appended comparison handle is the raw corpus path. -/
theorem stocksTail_ok_spec (env : FlowEnv) (b : Bool) (cachePath : String)
    (reportList : List String) (fs1 : FS) (list1 jsons1 : List String)
    (r : BranchOut)
    (h : stocksTail env (some b) cachePath reportList (fs1, list1, jsons1) = .ok r) :
    r.ret = some (list1 ++
      (if 1 < list1.length ∧ b = true
        then [stocksCorpusPath cachePath] else [])) ∧
    r.report_list = reportList ++ list1 ++
      (if 1 < list1.length ∧ b = true
        then [stocksCorpusPath cachePath] else []) ∧
    (r.comparisonInvoked = true ↔ (1 < list1.length ∧ b = true)) := by
  unfold stocksTail at h
  by_cases hlen : list1.length > 1
  · cases b with
    | false =>
      simp only [if_pos hlen, Bool.false_eq_true, if_false, except_pure,
        except_bind_ok] at h
      rw [Except.ok.injEq] at h
      subst h
      have hcond : ¬(1 < list1.length ∧ false = true) := by simp
      simp [if_neg hcond]
    | true =>
      simp only [if_pos hlen, if_true] at h
      cases hfsr : fsRead fs1 (stocksCorpusPath cachePath) with
      | none => simp [hfsr, except_bind_error] at h
      | some ctx =>
        cases hcc : env.contextCrew ctx COMPARISON_QUERY with
        | error e => simp [hfsr, hcc, extCall, except_bind_error] at h
        | ok cc =>
          simp only [hfsr, hcc, extCall, except_pure, except_bind_ok] at h
          rw [Except.ok.injEq] at h
          subst h
          have hcond : 1 < list1.length ∧ true = true := ⟨hlen, rfl⟩
          simp [if_pos hcond, hlen]
  · simp only [if_neg hlen, except_pure, except_bind_ok] at h
    rw [Except.ok.injEq] at h
    subst h
    have hcond : ¬(1 < list1.length ∧ b = true) := fun hx => hlen hx.1
    simp [if_neg hcond, hlen]

/-- Whenever `secTail` completes, the branch returns some block and appends
exactly that block to the global report list. -/
theorem secTail_shape (env : FlowEnv) (isC : Option Bool) (cachePath : String)
    (reportList : List String) (fs1 : FS) (list1 : List String) (r : BranchOut)
    (h : secTail env isC cachePath reportList (fs1, list1) = .ok r) :
    ∃ comp, (comp = [] ∨ comp = [env.toTxt (secCorpusPath cachePath)]) ∧
      r.ret = some (list1 ++ comp) ∧
      r.report_list = reportList ++ (list1 ++ comp) := by
  unfold secTail at h
  by_cases hlen : list1.length > 1
  · cases isC with
    | none => simp [if_pos hlen, except_bind_error] at h
    | some b =>
      cases b with
      | false =>
        simp only [if_pos hlen, Bool.false_eq_true, if_false, except_pure,
          except_bind_ok] at h
        rw [Except.ok.injEq] at h
        subst h
        exact ⟨[], Or.inl rfl, by simp, by simp⟩
      | true =>
        simp only [if_pos hlen, if_true] at h
        cases hfsr : fsRead fs1 (secCorpusPath cachePath) with
        | none => simp [hfsr, except_bind_error] at h
        | some ctx =>
          cases hcc : env.contextCrew ctx COMPARISON_QUERY with
          | error e => simp [hfsr, hcc, extCall, except_bind_error] at h
          | ok cc =>
            simp only [hfsr, hcc, extCall, except_pure, except_bind_ok] at h
            rw [Except.ok.injEq] at h
            subst h
            exact ⟨[env.toTxt (secCorpusPath cachePath)], Or.inr rfl, rfl, rfl⟩
  · simp only [if_neg hlen, except_pure, except_bind_ok] at h
    rw [Except.ok.injEq] at h
    subst h
    exact ⟨[], Or.inl rfl, by simp, by simp⟩

/-- Whenever `newsTail` completes, the branch returns some block and
appends exactly that block to the global report list. -/
theorem newsTail_shape (env : FlowEnv) (isC : Option Bool) (cachePath : String)
    (reportList : List String) (fs1 : FS) (list1 : List String) (r : BranchOut)
    (h : newsTail env isC cachePath reportList (fs1, list1) = .ok r) :
    ∃ comp, (comp = [] ∨ comp = [env.toTxt (newsCorpusPath cachePath)]) ∧
      r.ret = some (list1 ++ comp) ∧
      r.report_list = reportList ++ (list1 ++ comp) := by
  unfold newsTail at h
  by_cases hlen : list1.length > 1
  · cases isC with
    | none => simp [if_pos hlen, except_bind_error] at h
    | some b =>
      cases b with
      | false =>
        simp only [if_pos hlen, Bool.false_eq_true, if_false, except_pure,
          except_bind_ok] at h
        rw [Except.ok.injEq] at h
        subst h
        exact ⟨[], Or.inl rfl, by simp, by simp⟩
      | true =>
        simp only [if_pos hlen, if_true] at h
        cases hfsr : fsRead fs1 (newsCorpusPath cachePath) with
        | none => simp [hfsr, except_bind_error] at h
        | some ctx =>
          cases hcc : env.contextCrew ctx COMPARISON_QUERY with
          | error e => simp [hfsr, hcc, extCall, except_bind_error] at h
          | ok cc =>
            simp only [hfsr, hcc, extCall, except_pure, except_bind_ok] at h
            rw [Except.ok.injEq] at h
            subst h
            exact ⟨[env.toTxt (newsCorpusPath cachePath)], Or.inr rfl, rfl, rfl⟩
  · simp only [if_neg hlen, except_pure, except_bind_ok] at h
    rw [Except.ok.injEq] at h
    subst h
    exact ⟨[], Or.inl rfl, by simp, by simp⟩

/-- Whenever `stocksTail` completes, the branch returns some block and
appends exactly that block to the global report list. -/
theorem stocksTail_shape (env : FlowEnv) (isC : Option Bool) (cachePath : String)
    (reportList : List String) (fs1 : FS) (list1 jsons1 : List String)
    (r : BranchOut)
    (h : stocksTail env isC cachePath reportList (fs1, list1, jsons1) = .ok r) :
    ∃ comp, (comp = [] ∨ comp = [stocksCorpusPath cachePath]) ∧
      r.ret = some (list1 ++ comp) ∧
      r.report_list = reportList ++ (list1 ++ comp) := by
  unfold stocksTail at h
  by_cases hlen : list1.length > 1
  · cases isC with
    | none => simp [if_pos hlen, except_bind_error] at h
    | some b =>
      cases b with
      | false =>
        simp only [if_pos hlen, Bool.false_eq_true, if_false, except_pure,
          except_bind_ok] at h
        rw [Except.ok.injEq] at h
        subst h
        exact ⟨[], Or.inl rfl, by simp, by simp⟩
      | true =>
        simp only [if_pos hlen, if_true] at h
        cases hfsr : fsRead fs1 (stocksCorpusPath cachePath) with
        | none => simp [hfsr, except_bind_error] at h
        | some ctx =>
          cases hcc : env.contextCrew ctx COMPARISON_QUERY with
          | error e => simp [hfsr, hcc, extCall, except_bind_error] at h
          | ok cc =>
            simp only [hfsr, hcc, extCall, except_pure, except_bind_ok] at h
            rw [Except.ok.injEq] at h
            subst h
            exact ⟨[stocksCorpusPath cachePath], Or.inr rfl, rfl, rfl⟩
  · simp only [if_neg hlen, except_pure, except_bind_ok] at h
    rw [Except.ok.injEq] at h
    subst h
    exact ⟨[], Or.inl rfl, by simp, by simp⟩

/-- A completed stocks per-entity iteration appends exactly the raw text
filename of the crew's first output to the branch list. -/
theorem stocksEntityStep_reports (env : FlowEnv) (corpusPath : String)
    (fs : FS) (reports jsons : List String) (md : FilingMetadata)
    (acc2 : FS × List String × List String)
    (h : stocksEntityStep env corpusPath (fs, reports, jsons) md = .ok acc2) :
    ∃ fs2 j2, acc2 = (fs2, reports ++ [stocksTxtName env md], jsons ++ [j2]) := by
  unfold stocksEntityStep at h
  cases hc : env.stocksCrew md with
  | error e =>
    simp only [hc, extCall, except_bind_error] at h
    exact Except.noConfusion h
  | ok o =>
    simp only [hc, extCall, except_bind_ok] at h
    cases hjr : fsRead (stocksCrewWritesFS fs o) o.jsonName with
    | none =>
      simp only [hjr, except_bind_error] at h
      exact Except.noConfusion h
    | some data =>
      simp only [hjr, except_pure, except_bind_ok] at h
      cases hp : env.parseJsonTables data with
      | error e =>
        simp only [hp, extCall, except_bind_error] at h
        exact Except.noConfusion h
      | ok tables =>
        simp only [hp, extCall, except_bind_ok] at h
        have htn : stocksTxtName env md = o.txtName := by simp [stocksTxtName, hc]
        cases hfr : fsRead (stocksTablesFS env (stocksCrewWritesFS fs o) o tables)
            o.txtName with
        | none =>
          simp only [hfr, except_pure] at h
          rw [Except.ok.injEq] at h
          subst h
          exact ⟨_, o.jsonName, by rw [htn]⟩
        | some content =>
          simp only [hfr, except_pure] at h
          rw [Except.ok.injEq] at h
          subst h
          exact ⟨_, o.jsonName, by rw [htn]⟩

/-- Whatever storage does, a completed stocks fan-out appends exactly one
text-report handle per entity, in entity-input order. -/
theorem stocks_fold_reports (env : FlowEnv) (corpusPath : String) :
    ∀ (mds : List FilingMetadata) (fs : FS) (reports jsons : List String)
      (acc2 : FS × List String × List String),
      mds.foldlM (stocksEntityStep env corpusPath) (fs, reports, jsons) = .ok acc2 →
      acc2.2.1 = reports ++ mds.map (stocksTxtName env) := by
  intro mds
  induction mds with
  | nil =>
    intro fs reports jsons acc2 h
    simp only [List.foldlM] at h
    cases h
    simp
  | cons md rest ih =>
    intro fs reports jsons acc2 h
    simp only [List.foldlM] at h
    cases hstep : stocksEntityStep env corpusPath (fs, reports, jsons) md with
    | error e =>
      rw [hstep, except_bind_error] at h
      exact Except.noConfusion h
    | ok acc1 =>
      rw [hstep, except_bind_ok] at h
      obtain ⟨fs2, j2, hacc1⟩ :=
        stocksEntityStep_reports env corpusPath fs reports jsons md acc1 hstep
      subst hacc1
      have := ih _ _ _ _ h
      rw [this, List.map_cons, List.append_assoc]
      rfl

/-- When the converted corpus filename differs from the corpus path itself,
`secTail` never changes what is stored at the corpus path. -/
theorem secTail_corpus_read (env : FlowEnv) (isC : Option Bool)
    (cachePath : String)
    (reportList : List String) (fs1 : FS) (list1 : List String) (r : BranchOut)
    (hsep : env.toTxt (secCorpusPath cachePath) ≠ secCorpusPath cachePath)
    (h : secTail env isC cachePath reportList (fs1, list1) = .ok r) :
    fsRead r.fs (secCorpusPath cachePath) = fsRead fs1 (secCorpusPath cachePath) := by
  unfold secTail at h
  by_cases hlen : list1.length > 1
  · cases isC with
    | none => simp [if_pos hlen, except_bind_error] at h
    | some b =>
      cases b with
      | false =>
        simp only [if_pos hlen, Bool.false_eq_true, if_false, except_pure,
          except_bind_ok] at h
        rw [Except.ok.injEq] at h
        subst h
        rfl
      | true =>
        simp only [if_pos hlen, if_true] at h
        cases hfsr : fsRead fs1 (secCorpusPath cachePath) with
        | none => simp [hfsr, except_bind_error] at h
        | some ctx =>
          cases hcc : env.contextCrew ctx COMPARISON_QUERY with
          | error e => simp [hfsr, hcc, extCall, except_bind_error] at h
          | ok cc =>
            simp only [hfsr, hcc, extCall, except_pure, except_bind_ok] at h
            rw [Except.ok.injEq] at h
            subst h
            show fsRead (fsWrite fs1 (env.toTxt (secCorpusPath cachePath)) cc)
              (secCorpusPath cachePath) = some ctx
            rw [fsRead_fsWrite_ne _ _ _ _ (Ne.symm hsep)]
            exact hfsr
  · simp only [if_neg hlen, except_pure, except_bind_ok] at h
    rw [Except.ok.injEq] at h
    subst h
    rfl

/-- Completed enabled SEC branch run: the returned list and the block
appended to the global report list are the per-entity handles in entity
order, plus the comparison handle exactly when the comparison condition
holds. -/
theorem sec_edgar_ok_spec (env : FlowEnv) (b : Bool)
    (mds : List FilingMetadata) (cachePath : String)
    (fs : FS) (reportList : List String) (r : BranchOut)
    (h : sec_edgar env true (some b) (some mds) cachePath fs reportList = .ok r) :
    r.ret = some (mds.map (secHandle env) ++ secCompBlock env b mds cachePath) ∧
    r.report_list = reportList ++ mds.map (secHandle env) ++
      secCompBlock env b mds cachePath ∧
    (r.comparisonInvoked = true ↔ (1 < mds.length ∧ b = true)) := by
  rw [sec_edgar_true_eq] at h
  cases hfold : mds.foldlM (secEntityStep env (secCorpusPath cachePath)) (fs, []) with
  | error e =>
    rw [hfold, except_bind_error] at h
    exact Except.noConfusion h
  | ok folded =>
    obtain ⟨fs1, list1⟩ := folded
    rw [hfold, except_bind_ok] at h
    have hl : list1 = mds.map (secHandle env) := by
      simpa using sec_fold_reports env _ mds fs [] fs1 list1 hfold
    subst hl
    have hspec := secTail_ok_spec env b cachePath reportList fs1 _ r h
    simp only [List.length_map] at hspec
    refine ⟨?_, ?_, hspec.2.2⟩
    · rw [secCompBlock]; exact hspec.1
    · rw [secCompBlock]; exact hspec.2.1

/-- Completed enabled stocks branch run, analogous to
`sec_edgar_ok_spec`. -/
theorem yfinance_stocks_ok_spec (env : FlowEnv) (b : Bool)
    (mds : List FilingMetadata) (cachePath : String)
    (fs : FS) (reportList : List String) (r : BranchOut)
    (h : yfinance_stocks env true (some b) (some mds) cachePath fs reportList =
      .ok r) :
    r.ret = some (mds.map (stocksTxtName env) ++ stocksCompBlock b mds cachePath) ∧
    r.report_list = reportList ++ mds.map (stocksTxtName env) ++
      stocksCompBlock b mds cachePath ∧
    (r.comparisonInvoked = true ↔ (1 < mds.length ∧ b = true)) := by
  rw [yfinance_stocks_true_eq] at h
  cases hfold : mds.foldlM (stocksEntityStep env (stocksCorpusPath cachePath))
      (fs, [], []) with
  | error e =>
    rw [hfold, except_bind_error] at h
    exact Except.noConfusion h
  | ok folded =>
    obtain ⟨fs1, list1, jsons1⟩ := folded
    rw [hfold, except_bind_ok] at h
    have hl : list1 = mds.map (stocksTxtName env) := by
      simpa using stocks_fold_reports env _ mds fs [] [] _ hfold
    subst hl
    have hspec := stocksTail_ok_spec env b cachePath reportList fs1 _ jsons1 r h
    simp only [List.length_map] at hspec
    refine ⟨?_, ?_, hspec.2.2⟩
    · rw [stocksCompBlock]; exact hspec.1
    · rw [stocksCompBlock]; exact hspec.2.1

/-- C3: for every completed enabled branch run (SEC and stocks), the
secondary comparison task is invoked and exactly one comparison artifact is
appended to the branch's artifact list if and only if the branch produced
more than one entity artifact and `is_comparison` is true; in the other
truth-table cells no comparison artifact is appended and the task is not
invoked. -/
theorem c3_comparison_trigger (env : FlowEnv) (b : Bool)
    (mds : List FilingMetadata) (cachePath : String)
    (fsA fsB : FS) (rlA rlB : List String) (rSec rStk : BranchOut)
    (hsec : sec_edgar env true (some b) (some mds) cachePath fsA rlA = .ok rSec)
    (hstk : yfinance_stocks env true (some b) (some mds) cachePath fsB rlB =
      .ok rStk) :
    ((rSec.comparisonInvoked = true ∧
        rSec.ret = some (mds.map (secHandle env) ++
          [env.toTxt (secCorpusPath cachePath)])) ↔
      (1 < mds.length ∧ b = true)) ∧
    (¬(1 < mds.length ∧ b = true) →
      rSec.comparisonInvoked = false ∧
      rSec.ret = some (mds.map (secHandle env))) ∧
    ((rStk.comparisonInvoked = true ∧
        rStk.ret = some (mds.map (stocksTxtName env) ++
          [stocksCorpusPath cachePath])) ↔
      (1 < mds.length ∧ b = true)) ∧
    (¬(1 < mds.length ∧ b = true) →
      rStk.comparisonInvoked = false ∧
      rStk.ret = some (mds.map (stocksTxtName env))) := by
  obtain ⟨hs1, _hs2, hs3⟩ := sec_edgar_ok_spec env b mds cachePath fsA rlA rSec hsec
  obtain ⟨ht1, _ht2, ht3⟩ :=
    yfinance_stocks_ok_spec env b mds cachePath fsB rlB rStk hstk
  refine ⟨⟨fun hx => hs3.mp hx.1, fun hc => ⟨hs3.mpr hc, ?_⟩⟩, fun hn => ?_,
    ⟨fun hx => ht3.mp hx.1, fun hc => ⟨ht3.mpr hc, ?_⟩⟩, fun hn => ?_⟩
  · rw [secCompBlock, if_pos hc] at hs1
    exact hs1
  · refine ⟨?_, ?_⟩
    · cases hb : rSec.comparisonInvoked with
      | false => rfl
      | true => exact absurd (hs3.mp hb) hn
    · rw [secCompBlock, if_neg hn] at hs1
      simpa using hs1
  · rw [stocksCompBlock, if_pos hc] at ht1
    exact ht1
  · refine ⟨?_, ?_⟩
    · cases hb : rStk.comparisonInvoked with
      | false => rfl
      | true => exact absurd (ht3.mp hb) hn
    · rw [stocksCompBlock, if_neg hn] at ht1
      simpa using ht1

/-- Witness for C3: a concrete two-entity comparison run of both branches,
with the comparison artifact present. -/
theorem c3_comparison_trigger_witness :
    (branchOutOf c3SecRun).comparisonInvoked = true ∧
    (branchOutOf c3SecRun).ret =
      some ["txt_sec_CompA.csv", "txt_sec_CompB.csv",
        "txt_cache/comparison_sec_filings.txt"] ∧
    (branchOutOf c3StkRun).comparisonInvoked = true ∧
    (branchOutOf c3StkRun).ret =
      some ["stocks_CompA.txt", "stocks_CompB.txt",
        "cache/comparison_yfinance_stocks.txt"] := by
  have h := c3_comparison_trigger concreteEnv true [mdA, mdB] "cache"
    [] [] [] [] (branchOutOf c3SecRun) (branchOutOf c3StkRun) rfl rfl
  have hc : 1 < ([mdA, mdB] : List FilingMetadata).length ∧ true = true := by decide
  have hsec := h.1.mpr hc
  have hstk := (h.2.2.1).mpr hc
  exact ⟨hsec.1, hsec.2, hstk.1, hstk.2⟩

/-- C5 counterexample: a single-entity run in which the entity's artifact
was never produced (its report file cannot be read — the caught
`FileNotFoundError` path) still returns that entity's handle in the
artifact list and appends it to the global report list, so the list length
is 1 although zero entities succeeded, and a failed entity's handle
appears in it. -/
theorem c5_counterexample :
    sec_edgar ragNoneEnv true (some false) (some [mdA]) "cache" [] [] =
      .ok ⟨some ["txt_sec_CompA.csv"], [], ["txt_sec_CompA.csv"], false⟩ ∧
    fsRead (branchOutOf
        (sec_edgar ragNoneEnv true (some false) (some [mdA]) "cache" [] [])).fs
      "txt_sec_CompA.csv" = none :=
  ⟨rfl, rfl⟩

/-- C5 (amended): a completed enabled SEC branch run returns exactly one
handle per processed entity (whether or not that entity's artifact could
be read back), in entity-input order, plus zero or one comparison handle;
its length is the number of entities plus zero or one. -/
theorem c5_artifact_list_shape (env : FlowEnv) (b : Bool)
    (mds : List FilingMetadata) (cachePath : String)
    (fs : FS) (reportList : List String) (r : BranchOut)
    (h : sec_edgar env true (some b) (some mds) cachePath fs reportList = .ok r) :
    ∃ comp, (comp = [] ∨ comp = [env.toTxt (secCorpusPath cachePath)]) ∧
      r.ret = some (mds.map (secHandle env) ++ comp) ∧
      r.report_list = reportList ++ mds.map (secHandle env) ++ comp ∧
      (mds.map (secHandle env) ++ comp).length = mds.length + comp.length := by
  obtain ⟨h1, h2, _h3⟩ := sec_edgar_ok_spec env b mds cachePath fs reportList r h
  refine ⟨secCompBlock env b mds cachePath, ?_, h1, h2, by simp⟩
  rw [secCompBlock]
  by_cases hc : 1 < mds.length ∧ b = true
  · right; rw [if_pos hc]
  · left; rw [if_neg hc]

/-- Witness for C5 (amended) on the concrete two-entity comparison run. -/
theorem c5_artifact_list_shape_witness :
    ∃ comp, (comp = [] ∨ comp = [concreteEnv.toTxt (secCorpusPath "cache")]) ∧
      (branchOutOf c3SecRun).ret =
        some ([mdA, mdB].map (secHandle concreteEnv) ++ comp) ∧
      (branchOutOf c3SecRun).report_list =
        [] ++ [mdA, mdB].map (secHandle concreteEnv) ++ comp ∧
      ([mdA, mdB].map (secHandle concreteEnv) ++ comp).length =
        ([mdA, mdB] : List FilingMetadata).length + comp.length :=
  c5_artifact_list_shape concreteEnv true [mdA, mdB] "cache" [] []
    (branchOutOf c3SecRun) rfl

/-- C8 counterexample: aggregation opens the corpus file in append mode,
so re-running the SEC branch on the same artifact set without clearing the
corpus file duplicates its content rather than overwriting it. -/
theorem c8_counterexample :
    fsRead (branchOutOf c8Run1).fs (secCorpusPath "cache") = some c8Entry ∧
    fsRead (branchOutOf c8Run2).fs (secCorpusPath "cache") =
      some (c8Entry ++ c8Entry) ∧
    c8Entry ++ c8Entry ≠ c8Entry :=
  ⟨rfl, rfl, by decide⟩

/-- C8 (amended): aggregation appends to the corpus file, so re-running
without clearing duplicates content; but after the corpus file is cleared,
re-running the branch on the same entity set (crews succeeding and writing
each report) reproduces byte-identical corpus content — the content
`secCorpusText env mds` is a function of the environment and entities
only, independent of the rest of storage. -/
theorem c8_corpus_idempotence (env : FlowEnv) (b : Bool)
    (mds : List FilingMetadata) (cachePath : String)
    (fsA fsB : FS) (rlA rlB : List String) (rA rB : BranchOut)
    (hsep : ∀ f, env.toTxt f ≠ secCorpusPath cachePath)
    (hsec : ∀ md ∈ mds, ∃ fn, env.secCrew md = .ok fn)
    (hrag : ∀ md ∈ mds, ∃ c, env.ragCrew (secCrewName env md) md.query =
      .ok (some c))
    (hne : mds ≠ [])
    (hA : sec_edgar env true (some b) (some mds) cachePath fsA rlA = .ok rA)
    (hB : sec_edgar env true (some b) (some mds) cachePath fsB rlB = .ok rB)
    (hclearA : fsRead fsA (secCorpusPath cachePath) = none)
    (hclearB : fsRead fsB (secCorpusPath cachePath) = none) :
    fsRead rA.fs (secCorpusPath cachePath) = some (secCorpusText env mds) ∧
    fsRead rB.fs (secCorpusPath cachePath) = some (secCorpusText env mds) := by
  have main : ∀ (fs0 : FS) (rl0 : List String) (r0 : BranchOut),
      sec_edgar env true (some b) (some mds) cachePath fs0 rl0 = .ok r0 →
      fsRead fs0 (secCorpusPath cachePath) = none →
      fsRead r0.fs (secCorpusPath cachePath) = some (secCorpusText env mds) := by
    intro fs0 rl0 r0 h0 hclear
    rw [sec_edgar_true_eq] at h0
    obtain ⟨fs', hfold, hread⟩ :=
      sec_fold_corpus env (secCorpusPath cachePath) hsep mds hsec hrag fs0 []
    rw [hfold, except_bind_ok] at h0
    have htail := secTail_corpus_read env (some b) cachePath rl0 fs' _ r0
      (hsep _) h0
    rw [htail, hread, hclear]
    cases mds with
    | nil => exact absurd rfl hne
    | cons x xs => simp [List.isEmpty, String.empty_append]
  exact ⟨main fsA rlA rA hA hclearA, main fsB rlB rB hB hclearB⟩

/-- No converted filename of `concreteEnv` collides with the SEC corpus
path (the first characters already differ). -/
theorem txt_ne_secCorpusPath (f : String) :
    ("txt_" ++ f) ≠ secCorpusPath "cache" := by
  intro h
  have h2 := congrArg String.data h
  rw [String.data_append] at h2
  have h3 : "txt_".data = ['t', 'x', 't', '_'] := rfl
  have h4 : (secCorpusPath "cache").data =
      'c' :: "ache/comparison_sec_filings.txt".data := rfl
  rw [h3, h4] at h2
  simp only [List.cons_append] at h2
  injection h2 with h5 _h6
  exact absurd h5 (by decide)

/-- Witness for C8 (amended): two concrete runs of the same single-entity
aggregation from different corpus-free storages produce byte-identical
corpus content. -/
theorem c8_corpus_idempotence_witness :
    fsRead (branchOutOf c8Run1).fs (secCorpusPath "cache") =
      some (secCorpusText concreteEnv [mdA]) ∧
    fsRead (branchOutOf c8RunB).fs (secCorpusPath "cache") =
      some (secCorpusText concreteEnv [mdA]) :=
  c8_corpus_idempotence concreteEnv false [mdA] "cache" [] c8fsB [] []
    (branchOutOf c8Run1) (branchOutOf c8RunB)
    (fun f => txt_ne_secCorpusPath f)
    (fun md _ => ⟨"sec_" ++ md.company ++ ".csv", rfl⟩)
    (fun md _ => ⟨"rag content for " ++ secCrewName concreteEnv md ++ " on " ++
      md.query, rfl⟩)
    (by decide) rfl rfl rfl rfl

/-- C7 counterexample: a disabled SEC branch returns the absent value
`None` (main.py line 268), not a well-formed empty artifact list. -/
theorem c7_counterexample :
    sec_edgar concreteEnv false none none "cache" [] [] =
      .ok ⟨none, [], [], false⟩ ∧
    (none : Option (List String)) ≠ some [] :=
  ⟨rfl, by decide⟩

/-- C7 (amended): with the source flag false, the news and stocks branches
short-circuit to a well-formed empty artifact list, while the SEC branch
returns the absent value `None`; all three leave storage and the global
report list unchanged. -/
theorem c7_disabled_branches (env : FlowEnv) (isComparison : Option Bool)
    (mdl : Option (List FilingMetadata)) (cachePath : String)
    (fs : FS) (reportList : List String) :
    sec_edgar env false isComparison mdl cachePath fs reportList =
      .ok ⟨none, fs, reportList, false⟩ ∧
    yfinance_news env false isComparison mdl cachePath fs reportList =
      .ok ⟨some [], fs, reportList, false⟩ ∧
    yfinance_stocks env false isComparison mdl cachePath fs reportList =
      .ok ⟨some [], fs, reportList, false⟩ :=
  ⟨rfl, rfl, rfl⟩

/-- C2: against an executor failing on every attempt, `get_analysis`
invokes it exactly `max_retries` times, sleeps the fixed 10 time units
after each failure, and returns — the function is total, it never raises —
the degraded completion carrying the last error message, with no usage
value. -/
theorem c2_retry_exhaustion (invoke : Nat → Except String LLMResponse)
    (errs : Nat → String) (max_retries : Nat)
    (hfail : ∀ i, invoke i = .error (errs i)) (hpos : 0 < max_retries) :
    (get_analysis invoke max_retries).attempts = max_retries ∧
    (get_analysis invoke max_retries).sleeps = List.replicate max_retries 10 ∧
    (get_analysis invoke max_retries).completion =
      degradedCompletion (errs (max_retries - 1)) ∧
    (get_analysis invoke max_retries).usage = none := by
  have h := getAnalysisLoop_fail_spec errs invoke hfail max_retries 0 "" []
  simp only [get_analysis, h]
  simp [Nat.pos_iff_ne_zero.mp hpos]

/-- Witness for C2 at a concrete always-failing executor with three
retries: three attempts, three sleeps of 10, the degraded completion
carries the third attempt's error. -/
theorem c2_retry_exhaustion_witness :
    (get_analysis (fun i => .error (if i = 2 then "last" else "early")) 3).attempts
      = 3 ∧
    (get_analysis (fun i => .error (if i = 2 then "last" else "early")) 3).sleeps
      = List.replicate 3 10 ∧
    (get_analysis
        (fun i => .error (if i = 2 then "last" else "early")) 3).completion
      = degradedCompletion "last" ∧
    (get_analysis (fun i => .error (if i = 2 then "last" else "early")) 3).usage
      = none := by
  have h := c2_retry_exhaustion
    (fun i => .error (if i = 2 then "last" else "early"))
    (fun i => if i = 2 then "last" else "early") 3
    (fun i => rfl) (by norm_num)
  simpa using h

/-- C9: with `max_retries = 0` the loop body never runs, so the model is
never invoked (zero attempts, no sleeps); since `retries == max_retries`
holds trivially, `get_analysis` still returns rather than raising: the
degraded completion built from the initial empty error message, and a
`None` usage. -/
theorem c9_zero_max_retries (invoke : Nat → Except String LLMResponse) :
    get_analysis invoke 0 =
      ⟨degradedCompletion "", none, 0, []⟩ := rfl

/-- Along a trace, the completed-stage list accumulates exactly the stages
run, in order. -/
theorem flowTrace_done (env : FlowEnv) (cfg : FlowConfig) :
    ∀ {c c' : List Stage × FlowData} {l : List Stage},
      FlowTrace env cfg c l c' → c'.1 = c.1 ++ l := by
  intro c c' l h
  induction h with
  | nil c => simp
  | cons hstep htail ih =>
    cases hstep with
    | mk hnot hdeps hrun => rw [ih]; simp

/-- A trace through a marked stage splits into the prefix before it, the
step running it, and the rest. -/
theorem flowTrace_append_split (env : FlowEnv) (cfg : FlowConfig) :
    ∀ (l1 : List Stage) {c c'' : List Stage × FlowData} {s : Stage}
      {l2 : List Stage},
      FlowTrace env cfg c (l1 ++ s :: l2) c'' →
      ∃ cm cm', FlowTrace env cfg c l1 cm ∧ FlowStep env cfg cm s cm' ∧
        FlowTrace env cfg cm' l2 c'' := by
  intro l1
  induction l1 with
  | nil =>
    intro c c'' s l2 h
    cases h with
    | cons hstep htail => exact ⟨c, _, FlowTrace.nil c, hstep, htail⟩
  | cons a rest ih =>
    intro c c'' s l2 h
    cases h with
    | cons hstep htail =>
      obtain ⟨cm, cm', h1, h2, h3⟩ := ih htail
      exact ⟨cm, cm', FlowTrace.cons hstep h1, h2, h3⟩

/-- A schedule accepted by the executable driver is a legal trace. -/
theorem runSchedule_sound (env : FlowEnv) (cfg : FlowConfig) :
    ∀ (l : List Stage) (c c' : List Stage × FlowData),
      runSchedule env cfg l c = some c' → FlowTrace env cfg c l c' := by
  intro l
  induction l with
  | nil =>
    intro c c' h
    simp only [runSchedule, Option.some.injEq] at h
    subst h
    exact FlowTrace.nil c
  | cons s rest ih =>
    intro c c' h
    obtain ⟨done, data⟩ := c
    unfold runSchedule at h
    by_cases h1 : s ∈ done
    · rw [if_pos h1] at h
      exact Option.noConfusion h
    · rw [if_neg h1] at h
      by_cases h2 : ∀ d ∈ deps s, d ∈ done
      · rw [dif_pos h2] at h
        cases hrun : runStage env cfg s data with
        | error e =>
          rw [hrun] at h
          exact Option.noConfusion h
        | ok data' =>
          rw [hrun] at h
          exact FlowTrace.cons (FlowStep.mk h1 h2 hrun) (ih _ _ h)
      · rw [dif_neg h2] at h
        exact Option.noConfusion h

/-- C1: in every run of the workflow, the synthesis stage
(`report_writing`) starts only after all four predecessor stages — generic
research, the SEC branch, the news branch and the stocks branch — have
completed, for every environment and flag configuration (hence regardless
of whether each produced artifacts): any legal trace that fires
`reportWriting` has already run all four predecessors strictly before it. -/
theorem c1_join_barrier (env : FlowEnv) (cfg : FlowConfig) (fs0 : FS)
    (l1 l2 : List Stage) (cT : List Stage × FlowData)
    (h : FlowTrace env cfg ([], initData fs0)
      (l1 ++ Stage.reportWriting :: l2) cT) :
    Stage.genericResearch ∈ l1 ∧ Stage.secEdgar ∈ l1 ∧
    Stage.yfinanceNews ∈ l1 ∧ Stage.yfinanceStocks ∈ l1 := by
  obtain ⟨cm, cm', h1, h2, _h3⟩ := flowTrace_append_split env cfg l1 h
  have hdone : cm.1 = [] ++ l1 := flowTrace_done env cfg h1
  obtain ⟨doneM, dataM⟩ := cm
  simp only [List.nil_append] at hdone
  subst hdone
  cases h2 with
  | mk hnot hdeps hrun =>
    refine ⟨?_, ?_, ?_, ?_⟩
    · exact hdeps .genericResearch (by simp [deps])
    · exact hdeps .secEdgar (by simp [deps])
    · exact hdeps .yfinanceNews (by simp [deps])
    · exact hdeps .yfinanceStocks (by simp [deps])

/-- Witness for C1: the complete all-flags-off run, in which the first six
scheduled stages all precede `reportWriting`. -/
theorem c1_join_barrier_witness :
    Stage.genericResearch ∈ ([.genericResearch, .queryDecomposition,
      .informationExtraction, .secEdgar, .yfinanceNews, .yfinanceStocks] :
        List Stage) ∧
    Stage.secEdgar ∈ ([.genericResearch, .queryDecomposition,
      .informationExtraction, .secEdgar, .yfinanceNews, .yfinanceStocks] :
        List Stage) ∧
    Stage.yfinanceNews ∈ ([.genericResearch, .queryDecomposition,
      .informationExtraction, .secEdgar, .yfinanceNews, .yfinanceStocks] :
        List Stage) ∧
    Stage.yfinanceStocks ∈ ([.genericResearch, .queryDecomposition,
      .informationExtraction, .secEdgar, .yfinanceNews, .yfinanceStocks] :
        List Stage) := by
  have hrun : runSchedule concreteEnv allOffCfg
      ([.genericResearch, .queryDecomposition, .informationExtraction,
        .secEdgar, .yfinanceNews, .yfinanceStocks] ++
        Stage.reportWriting :: []) ([], initData []) = some c1Final := rfl
  have htr := runSchedule_sound concreteEnv allOffCfg _ _ _ hrun
  exact c1_join_barrier concreteEnv allOffCfg []
    [.genericResearch, .queryDecomposition, .informationExtraction,
      .secEdgar, .yfinanceNews, .yfinanceStocks] [] c1Final htr

/-- A completed generic-research stage appends either nothing (disabled)
or its single report handle. -/
theorem generic_research_shape (env : FlowEnv) (flag : Bool) (q : String)
    (fs : FS) (rl : List String) (out : Option String × FS × List String)
    (h : generic_research env flag q fs rl = .ok out) :
    ∃ bl, out.2.2 = rl ++ bl := by
  cases flag with
  | false =>
    rw [show generic_research env false q fs rl = .ok (none, fs, rl) from rfl,
      Except.ok.injEq] at h
    subst h
    exact ⟨[], by simp⟩
  | true =>
    rw [show generic_research env true q fs rl =
      extCall (env.genericCrew q) >>= (fun content =>
        pure (some genericReportName, fsWrite fs genericReportName content,
          rl ++ [genericReportName])) from rfl] at h
    cases hg : env.genericCrew q with
    | error e =>
      simp only [hg, extCall, except_bind_error] at h
      exact Except.noConfusion h
    | ok content =>
      simp only [hg, extCall, except_bind_ok, except_pure, Except.ok.injEq] at h
      subst h
      exact ⟨[genericReportName], rfl⟩

/-- A completed SEC branch appends some block to the global report list. -/
theorem sec_edgar_report_shape (env : FlowEnv) (flag : Bool)
    (isC : Option Bool) (mdl : Option (List FilingMetadata))
    (cachePath : String) (fs : FS) (rl : List String) (r : BranchOut)
    (h : sec_edgar env flag isC mdl cachePath fs rl = .ok r) :
    ∃ bl, r.report_list = rl ++ bl := by
  cases flag with
  | false =>
    rw [show sec_edgar env false isC mdl cachePath fs rl =
      .ok ⟨none, fs, rl, false⟩ from rfl, Except.ok.injEq] at h
    subst h
    exact ⟨[], by simp⟩
  | true =>
    cases mdl with
    | none => exact Except.noConfusion h
    | some mds =>
      rw [sec_edgar_true_eq] at h
      cases hfold : mds.foldlM (secEntityStep env (secCorpusPath cachePath))
          (fs, []) with
      | error e =>
        rw [hfold, except_bind_error] at h
        exact Except.noConfusion h
      | ok folded =>
        obtain ⟨fs1, list1⟩ := folded
        rw [hfold, except_bind_ok] at h
        obtain ⟨comp, _hc, _h1, h2⟩ := secTail_shape env isC cachePath rl fs1 list1 r h
        exact ⟨list1 ++ comp, h2⟩

/-- A completed news branch appends some block to the global report
list. -/
theorem yfinance_news_report_shape (env : FlowEnv) (flag : Bool)
    (isC : Option Bool) (mdl : Option (List FilingMetadata))
    (cachePath : String) (fs : FS) (rl : List String) (r : BranchOut)
    (h : yfinance_news env flag isC mdl cachePath fs rl = .ok r) :
    ∃ bl, r.report_list = rl ++ bl := by
  cases flag with
  | false =>
    rw [show yfinance_news env false isC mdl cachePath fs rl =
      .ok ⟨some [], fs, rl, false⟩ from rfl, Except.ok.injEq] at h
    subst h
    exact ⟨[], by simp⟩
  | true =>
    cases mdl with
    | none => exact Except.noConfusion h
    | some mds =>
      rw [yfinance_news_true_eq] at h
      cases hfold : mds.foldlM (newsEntityStep env (newsCorpusPath cachePath))
          (fs, []) with
      | error e =>
        rw [hfold, except_bind_error] at h
        exact Except.noConfusion h
      | ok folded =>
        obtain ⟨fs1, list1⟩ := folded
        rw [hfold, except_bind_ok] at h
        obtain ⟨comp, _hc, _h1, h2⟩ := newsTail_shape env isC cachePath rl fs1 list1 r h
        exact ⟨list1 ++ comp, h2⟩

/-- A completed stocks branch appends some block to the global report
list. -/
theorem yfinance_stocks_report_shape (env : FlowEnv) (flag : Bool)
    (isC : Option Bool) (mdl : Option (List FilingMetadata))
    (cachePath : String) (fs : FS) (rl : List String) (r : BranchOut)
    (h : yfinance_stocks env flag isC mdl cachePath fs rl = .ok r) :
    ∃ bl, r.report_list = rl ++ bl := by
  cases flag with
  | false =>
    rw [show yfinance_stocks env false isC mdl cachePath fs rl =
      .ok ⟨some [], fs, rl, false⟩ from rfl, Except.ok.injEq] at h
    subst h
    exact ⟨[], by simp⟩
  | true =>
    cases mdl with
    | none => exact Except.noConfusion h
    | some mds =>
      rw [yfinance_stocks_true_eq] at h
      cases hfold : mds.foldlM (stocksEntityStep env (stocksCorpusPath cachePath))
          (fs, [], []) with
      | error e =>
        rw [hfold, except_bind_error] at h
        exact Except.noConfusion h
      | ok folded =>
        obtain ⟨fs1, list1, jsons1⟩ := folded
        rw [hfold, except_bind_ok] at h
        obtain ⟨comp, _hc, _h1, h2⟩ :=
          stocksTail_shape env isC cachePath rl fs1 list1 jsons1 r h
        exact ⟨list1 ++ comp, h2⟩

/-- Every completed stage appends a (possibly empty) contiguous block at
the end of the global report list. -/
theorem runStage_report_shape (env : FlowEnv) (cfg : FlowConfig) (s : Stage)
    (st data' : FlowData) (h : runStage env cfg s st = .ok data') :
    ∃ block, data'.report_list = st.report_list ++ block := by
  cases s with
  | genericResearch =>
    simp only [runStage] at h
    cases hg : generic_research env cfg.source_generic_search cfg.query st.fs
        st.report_list with
    | error e =>
      rw [hg, except_bind_error] at h
      exact Except.noConfusion h
    | ok out =>
      obtain ⟨ret, fs2, rl2⟩ := out
      rw [hg, except_bind_ok, except_pure, Except.ok.injEq] at h
      subst h
      obtain ⟨bl, hbl⟩ := generic_research_shape env cfg.source_generic_search
        cfg.query st.fs st.report_list _ hg
      exact ⟨bl, hbl⟩
  | queryDecomposition =>
    simp only [runStage] at h
    cases horf : cfg.orBranchFlags with
    | true =>
      simp only [horf, if_true] at h
      cases hd : env.decompCrew cfg.query with
      | error e =>
        simp only [hd, extCall, except_bind_error] at h
        exact Except.noConfusion h
      | ok out =>
        simp only [hd, extCall, except_bind_ok, except_pure,
          Except.ok.injEq] at h
        subst h
        exact ⟨[], by simp⟩
    | false =>
      simp only [horf, Bool.false_eq_true, if_false, except_pure,
        Except.ok.injEq] at h
      subst h
      exact ⟨[], by simp⟩
  | informationExtraction =>
    simp only [runStage] at h
    cases horf : cfg.orBranchFlags with
    | true =>
      simp only [horf, if_true] at h
      cases hqd : st.qdReturn with
      | none =>
        simp only [hqd, except_bind_error] at h
        exact Except.noConfusion h
      | some qdr =>
        cases qdr with
        | queriesList l =>
          simp only [hqd, except_pure, except_bind_ok] at h
          cases hsh : env.sortingHatCrew (String.intercalate "." l) with
          | error e =>
            simp only [hsh, extCall, except_bind_error] at h
            exact Except.noConfusion h
          | ok entities =>
            simp only [hsh, extCall, except_bind_ok, except_pure,
              Except.ok.injEq] at h
            subst h
            exact ⟨[], by simp⟩
        | subQueriesObject l b =>
          simp only [hqd, except_bind_error] at h
          exact Except.noConfusion h
    | false =>
      simp only [horf, Bool.false_eq_true, if_false, except_pure,
        Except.ok.injEq] at h
      subst h
      exact ⟨[], by simp⟩
  | secEdgar =>
    simp only [runStage] at h
    cases hie : st.ieReturn with
    | none =>
      simp only [hie] at h
      exact Except.noConfusion h
    | some payload =>
      simp only [hie] at h
      cases hb : sec_edgar env cfg.source_sec_filings st.is_comparison payload
          cfg.cachePath st.fs st.report_list with
      | error e =>
        rw [hb, except_bind_error] at h
        exact Except.noConfusion h
      | ok r =>
        rw [hb, except_bind_ok, except_pure, Except.ok.injEq] at h
        subst h
        obtain ⟨bl, hbl⟩ := sec_edgar_report_shape env cfg.source_sec_filings
          st.is_comparison payload cfg.cachePath st.fs st.report_list r hb
        exact ⟨bl, hbl⟩
  | yfinanceNews =>
    simp only [runStage] at h
    cases hie : st.ieReturn with
    | none =>
      simp only [hie] at h
      exact Except.noConfusion h
    | some payload =>
      simp only [hie] at h
      cases hb : yfinance_news env cfg.source_yfinance_news st.is_comparison
          payload cfg.cachePath st.fs st.report_list with
      | error e =>
        rw [hb, except_bind_error] at h
        exact Except.noConfusion h
      | ok r =>
        rw [hb, except_bind_ok, except_pure, Except.ok.injEq] at h
        subst h
        obtain ⟨bl, hbl⟩ := yfinance_news_report_shape env
          cfg.source_yfinance_news st.is_comparison payload cfg.cachePath
          st.fs st.report_list r hb
        exact ⟨bl, hbl⟩
  | yfinanceStocks =>
    simp only [runStage] at h
    cases hie : st.ieReturn with
    | none =>
      simp only [hie] at h
      exact Except.noConfusion h
    | some payload =>
      simp only [hie] at h
      cases hb : yfinance_stocks env cfg.source_yfinance_stocks st.is_comparison
          payload cfg.cachePath st.fs st.report_list with
      | error e =>
        rw [hb, except_bind_error] at h
        exact Except.noConfusion h
      | ok r =>
        rw [hb, except_bind_ok, except_pure, Except.ok.injEq] at h
        subst h
        obtain ⟨bl, hbl⟩ := yfinance_stocks_report_shape env
          cfg.source_yfinance_stocks st.is_comparison payload cfg.cachePath
          st.fs st.report_list r hb
        exact ⟨bl, hbl⟩
  | reportWriting =>
    simp only [runStage] at h
    cases hw : report_writing env cfg.query st.report_list st.fs with
    | error e =>
      rw [hw, except_bind_error] at h
      exact Except.noConfusion h
    | ok fs2 =>
      rw [hw, except_bind_ok, except_pure, Except.ok.injEq] at h
      subst h
      exact ⟨[], by simp⟩

/-- C6 counterexample: a complete legal run (the scheduler may fire the
concurrently-listening branches in any order once extraction is done) in
which the news branch completes before the SEC branch, so the global
report list holds the news block before the SEC block — not the
source-declaration order (SEC, then news) the claim fixes. -/
theorem c6_counterexample :
    FlowTrace c6Env c6Cfg ([], initData []) c6Schedule c6Final ∧
    c6Final.2.report_list = ["txt_news_TCKA.csv", "txt_sec_CompA.csv"] ∧
    (["txt_news_TCKA.csv", "txt_sec_CompA.csv"] : List String) ≠
      ["txt_sec_CompA.csv", "txt_news_TCKA.csv"] :=
  ⟨runSchedule_sound c6Env c6Cfg c6Schedule ([], initData []) c6Final rfl,
    rfl, by decide⟩

/-- A successful news per-entity iteration appends exactly the converted
crew filename to the branch list. -/
theorem newsEntityStep_ok (env : FlowEnv) (corpusPath : String)
    (fs : FS) (reports : List String) (md : FilingMetadata)
    (fn : String) (ragOut : Option String)
    (hc : env.newsCrew md.ticker_symbol = .ok fn)
    (hr : env.ragCrew fn md.query = .ok ragOut) :
    newsEntityStep env corpusPath (fs, reports) md =
      .ok (newsEntityFS env corpusPath fs md fn ragOut,
        reports ++ [env.toTxt fn]) := by
  simp only [newsEntityStep, extCall, hc, except_bind_ok, hr, newsEntityFS]
  cases ragOut with
  | none => cases fsRead fs (env.toTxt fn) <;> rfl
  | some c => cases fsRead (fsWrite fs (env.toTxt fn) c) (env.toTxt fn) <;> rfl

/-- A failing news crew aborts the iteration. -/
theorem newsEntityStep_crew_error (env : FlowEnv) (corpusPath : String)
    (fs : FS) (reports : List String) (md : FilingMetadata) (e : String)
    (hc : env.newsCrew md.ticker_symbol = .error e) :
    newsEntityStep env corpusPath (fs, reports) md =
      .error (.externalError e) := by
  simp only [newsEntityStep, extCall, hc, except_bind_error]

/-- A failing RAG crew aborts the news iteration. -/
theorem newsEntityStep_rag_error (env : FlowEnv) (corpusPath : String)
    (fs : FS) (reports : List String) (md : FilingMetadata)
    (fn : String) (e : String)
    (hc : env.newsCrew md.ticker_symbol = .ok fn)
    (hr : env.ragCrew fn md.query = .error e) :
    newsEntityStep env corpusPath (fs, reports) md =
      .error (.externalError e) := by
  simp only [newsEntityStep, extCall, hc, except_bind_ok, hr, except_bind_error]

/-- A SEC per-entity iteration never raises an `AttributeError`: its only
exceptions come from the two crew invocations. -/
theorem secEntityStep_ne_attr (env : FlowEnv) (corpus : String)
    (acc : FS × List String) (md : FilingMetadata) (nm : String) :
    secEntityStep env corpus acc md ≠ .error (.attributeError nm) := by
  obtain ⟨fs, reports⟩ := acc
  intro h
  cases hc : env.secCrew md with
  | error e =>
    rw [secEntityStep_crew_error env corpus fs reports md e hc] at h
    exact PyError.noConfusion (Except.error.inj h)
  | ok fn =>
    cases hr : env.ragCrew fn md.query with
    | error e =>
      rw [secEntityStep_rag_error env corpus fs reports md fn e hc hr] at h
      exact PyError.noConfusion (Except.error.inj h)
    | ok o =>
      rw [secEntityStep_ok env corpus fs reports md fn o hc hr] at h
      exact Except.noConfusion h

/-- A news per-entity iteration never raises an `AttributeError`. -/
theorem newsEntityStep_ne_attr (env : FlowEnv) (corpus : String)
    (acc : FS × List String) (md : FilingMetadata) (nm : String) :
    newsEntityStep env corpus acc md ≠ .error (.attributeError nm) := by
  obtain ⟨fs, reports⟩ := acc
  intro h
  cases hc : env.newsCrew md.ticker_symbol with
  | error e =>
    rw [newsEntityStep_crew_error env corpus fs reports md e hc] at h
    exact PyError.noConfusion (Except.error.inj h)
  | ok fn =>
    cases hr : env.ragCrew fn md.query with
    | error e =>
      rw [newsEntityStep_rag_error env corpus fs reports md fn e hc hr] at h
      exact PyError.noConfusion (Except.error.inj h)
    | ok o =>
      rw [newsEntityStep_ok env corpus fs reports md fn o hc hr] at h
      exact Except.noConfusion h

/-- A stocks per-entity iteration never raises an `AttributeError`: its
exceptions are crew failures or the uncaught missing-JSON read. -/
theorem stocksEntityStep_ne_attr (env : FlowEnv) (corpus : String)
    (acc : FS × List String × List String) (md : FilingMetadata) (nm : String) :
    stocksEntityStep env corpus acc md ≠ .error (.attributeError nm) := by
  obtain ⟨fs, reports, jsons⟩ := acc
  intro h
  unfold stocksEntityStep at h
  cases hc : env.stocksCrew md with
  | error e =>
    simp only [hc, extCall, except_bind_error] at h
    exact PyError.noConfusion (Except.error.inj h)
  | ok o =>
    simp only [hc, extCall, except_bind_ok] at h
    cases hjr : fsRead (stocksCrewWritesFS fs o) o.jsonName with
    | none =>
      simp only [hjr, except_bind_error] at h
      exact PyError.noConfusion (Except.error.inj h)
    | some data =>
      simp only [hjr, except_pure, except_bind_ok] at h
      cases hp : env.parseJsonTables data with
      | error e =>
        simp only [hp, extCall, except_bind_error] at h
        exact PyError.noConfusion (Except.error.inj h)
      | ok tables =>
        simp only [hp, extCall, except_bind_ok] at h
        cases hfr : fsRead (stocksTablesFS env (stocksCrewWritesFS fs o) o tables)
            o.txtName with
        | none =>
          simp only [hfr, except_pure] at h
          exact Except.noConfusion h
        | some content =>
          simp only [hfr, except_pure] at h
          exact Except.noConfusion h

/-- The SEC fan-out fold never raises an `AttributeError`. -/
theorem sec_fold_ne_attr (env : FlowEnv) (corpus : String) :
    ∀ (mds : List FilingMetadata) (acc : FS × List String) (nm : String),
      mds.foldlM (secEntityStep env corpus) acc ≠
        .error (.attributeError nm) := by
  intro mds
  induction mds with
  | nil =>
    intro acc nm h
    exact Except.noConfusion h
  | cons md rest ih =>
    intro acc nm h
    simp only [List.foldlM] at h
    cases hstep : secEntityStep env corpus acc md with
    | error e =>
      rw [hstep, except_bind_error] at h
      have he : e = .attributeError nm := Except.error.inj h
      subst he
      exact secEntityStep_ne_attr env corpus acc md nm hstep
    | ok acc1 =>
      rw [hstep, except_bind_ok] at h
      exact ih acc1 nm h

/-- The news fan-out fold never raises an `AttributeError`. -/
theorem news_fold_ne_attr (env : FlowEnv) (corpus : String) :
    ∀ (mds : List FilingMetadata) (acc : FS × List String) (nm : String),
      mds.foldlM (newsEntityStep env corpus) acc ≠
        .error (.attributeError nm) := by
  intro mds
  induction mds with
  | nil =>
    intro acc nm h
    exact Except.noConfusion h
  | cons md rest ih =>
    intro acc nm h
    simp only [List.foldlM] at h
    cases hstep : newsEntityStep env corpus acc md with
    | error e =>
      rw [hstep, except_bind_error] at h
      have he : e = .attributeError nm := Except.error.inj h
      subst he
      exact newsEntityStep_ne_attr env corpus acc md nm hstep
    | ok acc1 =>
      rw [hstep, except_bind_ok] at h
      exact ih acc1 nm h

/-- The stocks fan-out fold never raises an `AttributeError`. -/
theorem stocks_fold_ne_attr (env : FlowEnv) (corpus : String) :
    ∀ (mds : List FilingMetadata) (acc : FS × List String × List String)
      (nm : String),
      mds.foldlM (stocksEntityStep env corpus) acc ≠
        .error (.attributeError nm) := by
  intro mds
  induction mds with
  | nil =>
    intro acc nm h
    exact Except.noConfusion h
  | cons md rest ih =>
    intro acc nm h
    simp only [List.foldlM] at h
    cases hstep : stocksEntityStep env corpus acc md with
    | error e =>
      rw [hstep, except_bind_error] at h
      have he : e = .attributeError nm := Except.error.inj h
      subst he
      exact stocksEntityStep_ne_attr env corpus acc md nm hstep
    | ok acc1 =>
      rw [hstep, except_bind_ok] at h
      exact ih acc1 nm h

/-- With the comparison flag assigned, `secTail` never raises an
`AttributeError`. -/
theorem secTail_some_ne_attr (env : FlowEnv) (b : Bool) (cachePath : String)
    (rl : List String) (fs1 : FS) (list1 : List String) (nm : String) :
    secTail env (some b) cachePath rl (fs1, list1) ≠
      .error (PyError.attributeError nm) := by
  intro h
  unfold secTail at h
  by_cases hlen : list1.length > 1
  · cases b with
    | false =>
      simp only [if_pos hlen, Bool.false_eq_true, if_false, except_pure,
        except_bind_ok] at h
      exact Except.noConfusion h
    | true =>
      simp only [if_pos hlen, if_true] at h
      cases hfsr : fsRead fs1 (secCorpusPath cachePath) with
      | none =>
        simp only [hfsr, except_bind_error] at h
        exact PyError.noConfusion (Except.error.inj h)
      | some ctx =>
        cases hcc : env.contextCrew ctx COMPARISON_QUERY with
        | error e =>
          simp only [hfsr, except_pure, except_bind_ok, hcc, extCall,
            except_bind_error] at h
          exact PyError.noConfusion (Except.error.inj h)
        | ok cc =>
          simp only [hfsr, hcc, extCall, except_pure, except_bind_ok] at h
          exact Except.noConfusion h
  · simp only [if_neg hlen, except_pure, except_bind_ok] at h
    exact Except.noConfusion h

/-- With the comparison flag assigned, `newsTail` never raises an
`AttributeError`. -/
theorem newsTail_some_ne_attr (env : FlowEnv) (b : Bool) (cachePath : String)
    (rl : List String) (fs1 : FS) (list1 : List String) (nm : String) :
    newsTail env (some b) cachePath rl (fs1, list1) ≠
      .error (PyError.attributeError nm) := by
  intro h
  unfold newsTail at h
  by_cases hlen : list1.length > 1
  · cases b with
    | false =>
      simp only [if_pos hlen, Bool.false_eq_true, if_false, except_pure,
        except_bind_ok] at h
      exact Except.noConfusion h
    | true =>
      simp only [if_pos hlen, if_true] at h
      cases hfsr : fsRead fs1 (newsCorpusPath cachePath) with
      | none =>
        simp only [hfsr, except_bind_error] at h
        exact PyError.noConfusion (Except.error.inj h)
      | some ctx =>
        cases hcc : env.contextCrew ctx COMPARISON_QUERY with
        | error e =>
          simp only [hfsr, except_pure, except_bind_ok, hcc, extCall,
            except_bind_error] at h
          exact PyError.noConfusion (Except.error.inj h)
        | ok cc =>
          simp only [hfsr, hcc, extCall, except_pure, except_bind_ok] at h
          exact Except.noConfusion h
  · simp only [if_neg hlen, except_pure, except_bind_ok] at h
    exact Except.noConfusion h

/-- With the comparison flag assigned, `stocksTail` never raises an
`AttributeError`. -/
theorem stocksTail_some_ne_attr (env : FlowEnv) (b : Bool) (cachePath : String)
    (rl : List String) (fs1 : FS) (list1 jsons1 : List String) (nm : String) :
    stocksTail env (some b) cachePath rl (fs1, list1, jsons1) ≠
      .error (PyError.attributeError nm) := by
  intro h
  unfold stocksTail at h
  by_cases hlen : list1.length > 1
  · cases b with
    | false =>
      simp only [if_pos hlen, Bool.false_eq_true, if_false, except_pure,
        except_bind_ok] at h
      exact Except.noConfusion h
    | true =>
      simp only [if_pos hlen, if_true] at h
      cases hfsr : fsRead fs1 (stocksCorpusPath cachePath) with
      | none =>
        simp only [hfsr, except_bind_error] at h
        exact PyError.noConfusion (Except.error.inj h)
      | some ctx =>
        cases hcc : env.contextCrew ctx COMPARISON_QUERY with
        | error e =>
          simp only [hfsr, except_pure, except_bind_ok, hcc, extCall,
            except_bind_error] at h
          exact PyError.noConfusion (Except.error.inj h)
        | ok cc =>
          simp only [hfsr, hcc, extCall, except_pure, except_bind_ok] at h
          exact Except.noConfusion h
  · simp only [if_neg hlen, except_pure, except_bind_ok] at h
    exact Except.noConfusion h

/-- When an enabled SEC branch can only be reached with the comparison
flag assigned, it never raises an `AttributeError`. -/
theorem sec_edgar_ne_attr (env : FlowEnv) (flag : Bool) (isC : Option Bool)
    (mdl : Option (List FilingMetadata)) (cachePath : String) (fs : FS)
    (rl : List String) (nm : String)
    (hc : flag = true → ∃ bb, isC = some bb) :
    sec_edgar env flag isC mdl cachePath fs rl ≠
      .error (PyError.attributeError nm) := by
  cases flag with
  | false =>
    intro h
    rw [show sec_edgar env false isC mdl cachePath fs rl =
      .ok ⟨none, fs, rl, false⟩ from rfl] at h
    exact Except.noConfusion h
  | true =>
    obtain ⟨bb, hbb⟩ := hc rfl
    subst hbb
    cases mdl with
    | none =>
      intro h
      rw [show sec_edgar env true (some bb) none cachePath fs rl =
        .error (.typeError "NoneType object is not iterable") from rfl] at h
      exact PyError.noConfusion (Except.error.inj h)
    | some mds =>
      rw [sec_edgar_true_eq]
      intro h
      cases hfold : mds.foldlM (secEntityStep env (secCorpusPath cachePath))
          (fs, []) with
      | error e =>
        rw [hfold, except_bind_error] at h
        have he : e = .attributeError nm := Except.error.inj h
        subst he
        exact sec_fold_ne_attr env (secCorpusPath cachePath) mds (fs, []) nm hfold
      | ok folded =>
        obtain ⟨fs1, list1⟩ := folded
        rw [hfold, except_bind_ok] at h
        exact secTail_some_ne_attr env bb cachePath rl fs1 list1 nm h

/-- When an enabled news branch can only be reached with the comparison
flag assigned, it never raises an `AttributeError`. -/
theorem yfinance_news_ne_attr (env : FlowEnv) (flag : Bool) (isC : Option Bool)
    (mdl : Option (List FilingMetadata)) (cachePath : String) (fs : FS)
    (rl : List String) (nm : String)
    (hc : flag = true → ∃ bb, isC = some bb) :
    yfinance_news env flag isC mdl cachePath fs rl ≠
      .error (PyError.attributeError nm) := by
  cases flag with
  | false =>
    intro h
    rw [show yfinance_news env false isC mdl cachePath fs rl =
      .ok ⟨some [], fs, rl, false⟩ from rfl] at h
    exact Except.noConfusion h
  | true =>
    obtain ⟨bb, hbb⟩ := hc rfl
    subst hbb
    cases mdl with
    | none =>
      intro h
      rw [show yfinance_news env true (some bb) none cachePath fs rl =
        .error (.typeError "NoneType object is not iterable") from rfl] at h
      exact PyError.noConfusion (Except.error.inj h)
    | some mds =>
      rw [yfinance_news_true_eq]
      intro h
      cases hfold : mds.foldlM (newsEntityStep env (newsCorpusPath cachePath))
          (fs, []) with
      | error e =>
        rw [hfold, except_bind_error] at h
        have he : e = .attributeError nm := Except.error.inj h
        subst he
        exact news_fold_ne_attr env (newsCorpusPath cachePath) mds (fs, []) nm hfold
      | ok folded =>
        obtain ⟨fs1, list1⟩ := folded
        rw [hfold, except_bind_ok] at h
        exact newsTail_some_ne_attr env bb cachePath rl fs1 list1 nm h

/-- When an enabled stocks branch can only be reached with the comparison
flag assigned, it never raises an `AttributeError`. -/
theorem yfinance_stocks_ne_attr (env : FlowEnv) (flag : Bool)
    (isC : Option Bool)
    (mdl : Option (List FilingMetadata)) (cachePath : String) (fs : FS)
    (rl : List String) (nm : String)
    (hc : flag = true → ∃ bb, isC = some bb) :
    yfinance_stocks env flag isC mdl cachePath fs rl ≠
      .error (PyError.attributeError nm) := by
  cases flag with
  | false =>
    intro h
    rw [show yfinance_stocks env false isC mdl cachePath fs rl =
      .ok ⟨some [], fs, rl, false⟩ from rfl] at h
    exact Except.noConfusion h
  | true =>
    obtain ⟨bb, hbb⟩ := hc rfl
    subst hbb
    cases mdl with
    | none =>
      intro h
      rw [show yfinance_stocks env true (some bb) none cachePath fs rl =
        .error (.typeError "NoneType object is not iterable") from rfl] at h
      exact PyError.noConfusion (Except.error.inj h)
    | some mds =>
      rw [yfinance_stocks_true_eq]
      intro h
      cases hfold : mds.foldlM (stocksEntityStep env (stocksCorpusPath cachePath))
          (fs, [], []) with
      | error e =>
        rw [hfold, except_bind_error] at h
        have he : e = .attributeError nm := Except.error.inj h
        subst he
        exact stocks_fold_ne_attr env (stocksCorpusPath cachePath) mds
          (fs, [], []) nm hfold
      | ok folded =>
        obtain ⟨fs1, list1, jsons1⟩ := folded
        rw [hfold, except_bind_ok] at h
        exact stocksTail_some_ne_attr env bb cachePath rl fs1 list1 jsons1 nm h

/-- A branch stage whose run state has the comparison flag assigned
whenever some branch flag is set never raises an `AttributeError`. -/
theorem runStage_branch_ne_attr (env : FlowEnv) (cfg : FlowConfig) (s : Stage)
    (st : FlowData) (nm : String)
    (hs : s = Stage.secEdgar ∨ s = Stage.yfinanceNews ∨ s = Stage.yfinanceStocks)
    (hcomp : cfg.orBranchFlags = true → ∃ bb, st.is_comparison = some bb) :
    runStage env cfg s st ≠ .error (PyError.attributeError nm) := by
  have hsec : cfg.source_sec_filings = true → ∃ bb, st.is_comparison = some bb :=
    fun hf => hcomp (by simp [FlowConfig.orBranchFlags, hf])
  have hnews : cfg.source_yfinance_news = true →
      ∃ bb, st.is_comparison = some bb :=
    fun hf => hcomp (by simp [FlowConfig.orBranchFlags, hf])
  have hstk : cfg.source_yfinance_stocks = true →
      ∃ bb, st.is_comparison = some bb :=
    fun hf => hcomp (by simp [FlowConfig.orBranchFlags, hf])
  rcases hs with rfl | rfl | rfl <;> intro h <;> simp only [runStage] at h
  · cases hie : st.ieReturn with
    | none =>
      simp only [hie] at h
      exact PyError.noConfusion (Except.error.inj h)
    | some payload =>
      simp only [hie] at h
      cases hb : sec_edgar env cfg.source_sec_filings st.is_comparison payload
          cfg.cachePath st.fs st.report_list with
      | error e =>
        rw [hb, except_bind_error] at h
        have he : e = .attributeError nm := Except.error.inj h
        subst he
        exact sec_edgar_ne_attr env cfg.source_sec_filings st.is_comparison
          payload cfg.cachePath st.fs st.report_list nm hsec hb
      | ok r =>
        rw [hb, except_bind_ok, except_pure] at h
        exact Except.noConfusion h
  · cases hie : st.ieReturn with
    | none =>
      simp only [hie] at h
      exact PyError.noConfusion (Except.error.inj h)
    | some payload =>
      simp only [hie] at h
      cases hb : yfinance_news env cfg.source_yfinance_news st.is_comparison
          payload cfg.cachePath st.fs st.report_list with
      | error e =>
        rw [hb, except_bind_error] at h
        have he : e = .attributeError nm := Except.error.inj h
        subst he
        exact yfinance_news_ne_attr env cfg.source_yfinance_news
          st.is_comparison payload cfg.cachePath st.fs st.report_list nm hnews hb
      | ok r =>
        rw [hb, except_bind_ok, except_pure] at h
        exact Except.noConfusion h
  · cases hie : st.ieReturn with
    | none =>
      simp only [hie] at h
      exact PyError.noConfusion (Except.error.inj h)
    | some payload =>
      simp only [hie] at h
      cases hb : yfinance_stocks env cfg.source_yfinance_stocks st.is_comparison
          payload cfg.cachePath st.fs st.report_list with
      | error e =>
        rw [hb, except_bind_error] at h
        have he : e = .attributeError nm := Except.error.inj h
        subst he
        exact yfinance_stocks_ne_attr env cfg.source_yfinance_stocks
          st.is_comparison payload cfg.cachePath st.fs st.report_list nm hstk hb
      | ok r =>
        rw [hb, except_bind_ok, except_pure] at h
        exact Except.noConfusion h

/-- Field behaviour of one completed stage: only decomposition assigns
`self.is_comparison` (and does so exactly when some branch flag is set),
only extraction assigns its stored return value (an entity list when some
branch flag is set). -/
theorem runStage_fields (env : FlowEnv) (cfg : FlowConfig) (s : Stage)
    (st data' : FlowData) (h : runStage env cfg s st = .ok data') :
    (s ≠ .queryDecomposition → data'.is_comparison = st.is_comparison) ∧
    (s ≠ .informationExtraction → data'.ieReturn = st.ieReturn) ∧
    (s = .queryDecomposition → cfg.orBranchFlags = true →
      ∃ bb, data'.is_comparison = some bb) ∧
    (s = .informationExtraction →
      ∃ p, data'.ieReturn = some p ∧
        (cfg.orBranchFlags = true → ∃ l, p = some l)) := by
  cases s with
  | genericResearch =>
    simp only [runStage] at h
    cases hg : generic_research env cfg.source_generic_search cfg.query st.fs
        st.report_list with
    | error e =>
      rw [hg, except_bind_error] at h
      exact Except.noConfusion h
    | ok out =>
      obtain ⟨ret, fs2, rl2⟩ := out
      rw [hg, except_bind_ok, except_pure, Except.ok.injEq] at h
      subst h
      exact ⟨fun _ => rfl, fun _ => rfl, fun hq => Stage.noConfusion hq,
        fun hq => Stage.noConfusion hq⟩
  | queryDecomposition =>
    simp only [runStage] at h
    cases horf : cfg.orBranchFlags with
    | true =>
      simp only [horf, if_true] at h
      cases hd : env.decompCrew cfg.query with
      | error e =>
        simp only [hd, extCall, except_bind_error] at h
        exact Except.noConfusion h
      | ok out =>
        simp only [hd, extCall, except_bind_ok, except_pure,
          Except.ok.injEq] at h
        subst h
        exact ⟨fun hq => absurd rfl hq, fun _ => rfl,
          fun _ _ => ⟨out.2, rfl⟩, fun hq => Stage.noConfusion hq⟩
    | false =>
      simp only [horf, Bool.false_eq_true, if_false, except_pure,
        Except.ok.injEq] at h
      subst h
      exact ⟨fun hq => absurd rfl hq, fun _ => rfl,
        fun _ hof => absurd hof (by decide),
        fun hq => Stage.noConfusion hq⟩
  | informationExtraction =>
    simp only [runStage] at h
    cases horf : cfg.orBranchFlags with
    | true =>
      simp only [horf, if_true] at h
      cases hqd : st.qdReturn with
      | none =>
        simp only [hqd, except_bind_error] at h
        exact Except.noConfusion h
      | some qdr =>
        cases qdr with
        | queriesList l =>
          simp only [hqd, except_pure, except_bind_ok] at h
          cases hsh : env.sortingHatCrew (String.intercalate "." l) with
          | error e =>
            simp only [hsh, extCall, except_bind_error] at h
            exact Except.noConfusion h
          | ok entities =>
            simp only [hsh, extCall, except_bind_ok, except_pure,
              Except.ok.injEq] at h
            subst h
            exact ⟨fun _ => rfl, fun hq => absurd rfl hq,
              fun hq => Stage.noConfusion hq,
              fun _ => ⟨some entities, rfl, fun _ => ⟨entities, rfl⟩⟩⟩
        | subQueriesObject l b =>
          simp only [hqd, except_bind_error] at h
          exact Except.noConfusion h
    | false =>
      simp only [horf, Bool.false_eq_true, if_false, except_pure,
        Except.ok.injEq] at h
      subst h
      exact ⟨fun _ => rfl, fun hq => absurd rfl hq,
        fun hq => Stage.noConfusion hq,
        fun _ => ⟨none, rfl,
          fun hof => absurd hof (by decide)⟩⟩
  | secEdgar =>
    simp only [runStage] at h
    cases hie : st.ieReturn with
    | none =>
      simp only [hie] at h
      exact Except.noConfusion h
    | some payload =>
      simp only [hie] at h
      cases hb : sec_edgar env cfg.source_sec_filings st.is_comparison payload
          cfg.cachePath st.fs st.report_list with
      | error e =>
        rw [hb, except_bind_error] at h
        exact Except.noConfusion h
      | ok r =>
        rw [hb, except_bind_ok, except_pure, Except.ok.injEq] at h
        subst h
        exact ⟨fun _ => rfl, fun _ => rfl, fun hq => Stage.noConfusion hq,
          fun hq => Stage.noConfusion hq⟩
  | yfinanceNews =>
    simp only [runStage] at h
    cases hie : st.ieReturn with
    | none =>
      simp only [hie] at h
      exact Except.noConfusion h
    | some payload =>
      simp only [hie] at h
      cases hb : yfinance_news env cfg.source_yfinance_news st.is_comparison
          payload cfg.cachePath st.fs st.report_list with
      | error e =>
        rw [hb, except_bind_error] at h
        exact Except.noConfusion h
      | ok r =>
        rw [hb, except_bind_ok, except_pure, Except.ok.injEq] at h
        subst h
        exact ⟨fun _ => rfl, fun _ => rfl, fun hq => Stage.noConfusion hq,
          fun hq => Stage.noConfusion hq⟩
  | yfinanceStocks =>
    simp only [runStage] at h
    cases hie : st.ieReturn with
    | none =>
      simp only [hie] at h
      exact Except.noConfusion h
    | some payload =>
      simp only [hie] at h
      cases hb : yfinance_stocks env cfg.source_yfinance_stocks st.is_comparison
          payload cfg.cachePath st.fs st.report_list with
      | error e =>
        rw [hb, except_bind_error] at h
        exact Except.noConfusion h
      | ok r =>
        rw [hb, except_bind_ok, except_pure, Except.ok.injEq] at h
        subst h
        exact ⟨fun _ => rfl, fun _ => rfl, fun hq => Stage.noConfusion hq,
          fun hq => Stage.noConfusion hq⟩
  | reportWriting =>
    simp only [runStage] at h
    cases hw : report_writing env cfg.query st.report_list st.fs with
    | error e =>
      rw [hw, except_bind_error] at h
      exact Except.noConfusion h
    | ok fs2 =>
      rw [hw, except_bind_ok, except_pure, Except.ok.injEq] at h
      subst h
      exact ⟨fun _ => rfl, fun _ => rfl, fun hq => Stage.noConfusion hq,
        fun hq => Stage.noConfusion hq⟩

/-- The invariant holds initially. -/
theorem flowInv_init (cfg : FlowConfig) (fs0 : FS) :
    FlowInv cfg ([], initData fs0) := by
  refine ⟨?_, ?_, ?_⟩
  · intro s hs
    exact absurd hs (by simp)
  · intro hq
    exact absurd hq (by simp)
  · intro hq
    exact absurd hq (by simp)

/-- One scheduler step preserves the invariant. -/
theorem flowInv_step (env : FlowEnv) (cfg : FlowConfig)
    {c : List Stage × FlowData} {s : Stage} {c' : List Stage × FlowData}
    (hstep : FlowStep env cfg c s c') (hinv : FlowInv cfg c) :
    FlowInv cfg c' := by
  cases hstep with
  | mk hnot hdeps hrun =>
    obtain ⟨inv1, inv2, inv3⟩ := hinv
    obtain ⟨hf1, hf2, hf3, hf4⟩ := runStage_fields env cfg s _ _ hrun
    refine ⟨?_, ?_, ?_⟩
    · intro s' hs' d hd
      rcases List.mem_append.mp hs' with h1 | h1
      · exact List.mem_append.mpr (Or.inl (inv1 s' h1 d hd))
      · have heq : s' = s := List.mem_singleton.mp h1
        subst heq
        exact List.mem_append.mpr (Or.inl (hdeps d hd))
    · intro hqd horf
      rcases List.mem_append.mp hqd with h1 | h1
      · by_cases hsq : s = .queryDecomposition
        · exact hf3 hsq horf
        · rw [hf1 hsq]
          exact inv2 h1 horf
      · exact hf3 (List.mem_singleton.mp h1).symm horf
    · intro hie
      rcases List.mem_append.mp hie with h1 | h1
      · by_cases hsi : s = .informationExtraction
        · exact hf4 hsi
        · rw [hf2 hsi]
          exact inv3 h1
      · exact hf4 (List.mem_singleton.mp h1).symm

/-- The invariant holds along every trace. -/
theorem flowInv_trace (env : FlowEnv) (cfg : FlowConfig) :
    ∀ {c c' : List Stage × FlowData} {l : List Stage},
      FlowTrace env cfg c l c' → FlowInv cfg c → FlowInv cfg c' := by
  intro c c' l h
  induction h with
  | nil c => exact id
  | cons hstep htail ih =>
    intro h0
    exact ih (flowInv_step env cfg hstep h0)

/-- C10: in every reachable run state from which a branch stage is ready
to fire (its dependencies completed), `self.is_comparison` has already
been assigned by `query_decomposition` whenever any branch flag is set —
any set branch flag forces decomposition down the assigning path, and
decomposition precedes extraction, which precedes the branches — so the
branch stage never raises an `AttributeError` reading the flag. -/
theorem c10_is_comparison_defined (env : FlowEnv) (cfg : FlowConfig) (fs0 : FS)
    (l : List Stage) (done : List Stage) (data : FlowData) (s : Stage)
    (htr : FlowTrace env cfg ([], initData fs0) l (done, data))
    (hs : s = Stage.secEdgar ∨ s = Stage.yfinanceNews ∨ s = Stage.yfinanceStocks)
    (hdeps : ∀ d ∈ deps s, d ∈ done) :
    (cfg.orBranchFlags = true → ∃ bb, data.is_comparison = some bb) ∧
    runStage env cfg s data ≠ .error (PyError.attributeError "is_comparison") := by
  have hinv := flowInv_trace env cfg htr (flowInv_init cfg fs0)
  obtain ⟨inv1, inv2, inv3⟩ := hinv
  have hie : Stage.informationExtraction ∈ done := by
    rcases hs with rfl | rfl | rfl <;> exact hdeps _ (by simp [deps])
  have hqd : Stage.queryDecomposition ∈ done :=
    inv1 _ hie _ (by simp [deps])
  have hcomp : cfg.orBranchFlags = true → ∃ bb, data.is_comparison = some bb :=
    inv2 hqd
  exact ⟨hcomp,
    runStage_branch_ne_attr env cfg s data "is_comparison" hs hcomp⟩

/-- Witness for C10: the state after decomposition and extraction in the
SEC-and-news run, from which the SEC branch is ready; the flag is
assigned and the stage run raises no `AttributeError`. -/
theorem c10_is_comparison_defined_witness :
    (c6Cfg.orBranchFlags = true → ∃ bb, c6Mid.2.is_comparison = some bb) ∧
    runStage c6Env c6Cfg .secEdgar c6Mid.2 ≠
      .error (PyError.attributeError "is_comparison") :=
  c10_is_comparison_defined c6Env c6Cfg []
    [.queryDecomposition, .informationExtraction] c6Mid.1 c6Mid.2 .secEdgar
    (runSchedule_sound c6Env c6Cfg [.queryDecomposition, .informationExtraction]
      ([], initData []) c6Mid rfl)
    (Or.inl rfl) (by decide)


/-- Whatever storage does, a completed news fan-out appends exactly one
converted handle per entity, in entity-input order. -/
theorem news_fold_reports (env : FlowEnv) (corpusPath : String) :
    ∀ (mds : List FilingMetadata) (fs : FS) (reports : List String)
      (fs' : FS) (reports' : List String),
      mds.foldlM (newsEntityStep env corpusPath) (fs, reports) = .ok (fs', reports') →
      reports' = reports ++ mds.map (newsHandle env) := by
  intro mds
  induction mds with
  | nil =>
    intro fs reports fs' reports' h
    simp only [List.foldlM] at h
    cases h
    simp
  | cons md rest ih =>
    intro fs reports fs' reports' h
    simp only [List.foldlM] at h
    cases hc : env.newsCrew md.ticker_symbol with
    | error e =>
      rw [newsEntityStep_crew_error env corpusPath fs reports md e hc,
        except_bind_error] at h
      exact Except.noConfusion h
    | ok fn =>
      cases hr : env.ragCrew fn md.query with
      | error e =>
        rw [newsEntityStep_rag_error env corpusPath fs reports md fn e hc hr,
          except_bind_error] at h
        exact Except.noConfusion h
      | ok ragOut =>
        rw [newsEntityStep_ok env corpusPath fs reports md fn ragOut hc hr,
          except_bind_ok] at h
        have := ih _ _ _ _ h
        rw [this, List.map_cons, List.append_assoc]
        congr 1
        simp [newsHandle, newsCrewName, hc]

/-- With the stocks crew returning, its JSON tables output present and
parseable, a stocks per-entity iteration completes — whatever the rest of
storage holds, since a missing text report is caught — and appends exactly
the entity's text handle and JSON name. -/
theorem stocksEntityStep_total (env : FlowEnv) (corpus : String)
    (fs : FS) (reports jsons : List String) (md : FilingMetadata)
    (o : StocksCrewOut) (jc : String) (tables : List (String × String))
    (hc : env.stocksCrew md = .ok o) (hjw : o.jsonWrite = some jc)
    (hp : env.parseJsonTables jc = .ok tables) :
    ∃ fs2, stocksEntityStep env corpus (fs, reports, jsons) md =
      .ok (fs2, reports ++ [stocksTxtName env md], jsons ++ [o.jsonName]) := by
  have hjr : fsRead (stocksCrewWritesFS fs o) o.jsonName = some jc := by
    simp only [stocksCrewWritesFS, hjw]
    exact fsRead_fsWrite_self _ _ _
  have htn : stocksTxtName env md = o.txtName := by simp [stocksTxtName, hc]
  unfold stocksEntityStep
  simp only [hc, extCall, except_bind_ok, hjr, except_pure, hp]
  rw [htn]
  cases fsRead (stocksTablesFS env (stocksCrewWritesFS fs o) o tables)
      o.txtName with
  | none => exact ⟨_, rfl⟩
  | some content => exact ⟨_, rfl⟩

/-- With the stocks crew returning on every entity and every JSON tables
output present and parseable, the stocks fan-out completes for every entity
list and every storage state, each entity contributing its text handle in
entity-input order. -/
theorem stocks_fold_total (env : FlowEnv) (corpus : String)
    (hcrew : ∀ md, ∃ o jc tables, env.stocksCrew md = .ok o ∧
      o.jsonWrite = some jc ∧ env.parseJsonTables jc = .ok tables) :
    ∀ (mds : List FilingMetadata) (fs : FS) (reports jsons : List String),
      ∃ fs' jsons', mds.foldlM (stocksEntityStep env corpus) (fs, reports, jsons) =
        .ok (fs', reports ++ mds.map (stocksTxtName env), jsons') := by
  intro mds
  induction mds with
  | nil =>
    intro fs reports jsons
    exact ⟨fs, jsons, by simp [List.foldlM, except_pure]⟩
  | cons md rest ih =>
    intro fs reports jsons
    obtain ⟨o, jc, tables, hc, hjw, hp⟩ := hcrew md
    obtain ⟨fs2, hstep⟩ :=
      stocksEntityStep_total env corpus fs reports jsons md o jc tables hc hjw hp
    obtain ⟨fs', jsons', hfold⟩ := ih fs2 (reports ++ [stocksTxtName env md])
      (jsons ++ [o.jsonName])
    refine ⟨fs', jsons', ?_⟩
    simp only [List.foldlM]
    rw [hstep, except_bind_ok, hfold, List.append_assoc]
    rfl

/-- C4 counterexample: a failure while producing the first entity's
artifact (the SEC EDGAR crew raising) aborts the whole SEC branch, and a
missing JSON tables file for the first entity — read outside the `try`
block (main.py line 378) — aborts the whole stocks branch; in both cited
fan-outs the second entity is never processed and no artifact list is
returned, contradicting the claim that every per-entity failure is
recorded and the loop continues. -/
theorem c4_counterexample :
    sec_edgar c4FailEnv true (some false) (some [mdA, mdB]) "cache" [] [] =
      .error (.externalError "sec crew boom") ∧
    yfinance_stocks c4StkFailEnv true (some false) (some [mdA, mdB]) "cache"
      [] [] = .error .fileNotFoundError :=
  ⟨rfl, rfl⟩

/-- C4 (amended): only failures inside the caught
read-report-and-append-to-corpus block are recorded and skipped.  In the
SEC fan-out, with the crews returning values, every entity is processed on
every storage state — a missing or unreadable report file is caught within
its iteration and the remaining entities still contribute their handles, one
per entity in entity-input order.  In the cited stocks fan-out, with the
crew returning and each entity's JSON tables output present and parseable,
every entity is likewise processed, contributing one text handle per entity
in order, on every storage state.  A failure producing an entity's
artifact, or the stocks branch's uncaught missing-JSON read, instead aborts
the branch (see the counterexample). -/
theorem c4_entity_isolation (env : FlowEnv) (corpusSec corpusStk : String)
    (mds : List FilingMetadata) (fs fsS : FS)
    (reports reportsS jsonsS : List String)
    (hsec : ∀ md, ∃ fn, env.secCrew md = .ok fn)
    (hrag : ∀ f q, ∃ o, env.ragCrew f q = .ok o)
    (hcrew : ∀ md, ∃ o jc tables, env.stocksCrew md = .ok o ∧
      o.jsonWrite = some jc ∧ env.parseJsonTables jc = .ok tables) :
    (∃ fs', mds.foldlM (secEntityStep env corpusSec) (fs, reports) =
      .ok (fs', reports ++ mds.map (secHandle env))) ∧
    (∃ fs' jsons', mds.foldlM (stocksEntityStep env corpusStk)
        (fsS, reportsS, jsonsS) =
      .ok (fs', reportsS ++ mds.map (stocksTxtName env), jsons')) :=
  ⟨sec_fold_total env corpusSec hsec hrag mds fs reports,
   stocks_fold_total env corpusStk hcrew mds fsS reportsS jsonsS⟩

/-- Witness for C4 (amended): the first entity's report file is missing in
the SEC fan-out (its RAG crew wrote nothing), yet both fan-outs complete
on two entities with both handles present in entity order. -/
theorem c4_entity_isolation_witness :
    (∃ fs', ([mdA, mdB] : List FilingMetadata).foldlM
        (secEntityStep c4IsolationEnv (secCorpusPath "cache")) ([], []) =
      .ok (fs', ["txt_sec_CompA.csv", "txt_sec_CompB.csv"])) ∧
    (∃ fs' jsons', ([mdA, mdB] : List FilingMetadata).foldlM
        (stocksEntityStep c4IsolationEnv (stocksCorpusPath "cache"))
        ([], [], []) =
      .ok (fs', ["stocks_CompA.txt", "stocks_CompB.txt"], jsons')) := by
  obtain ⟨⟨fsA, hA⟩, fsB, jsB, hB⟩ := c4_entity_isolation c4IsolationEnv
    (secCorpusPath "cache") (stocksCorpusPath "cache")
    [mdA, mdB] [] [] [] [] []
    (fun md => ⟨"sec_" ++ md.company ++ ".csv", rfl⟩)
    (fun f q => by
      by_cases hf : f = "sec_CompA.csv"
      · exact ⟨none, by simp [c4IsolationEnv, hf]⟩
      · exact ⟨some ("rag content for " ++ f ++ " on " ++ q),
          by simp [c4IsolationEnv, hf]⟩)
    (fun md => ⟨⟨"stocks_" ++ md.company ++ ".txt",
      "stocks_" ++ md.company ++ ".json", some "stock report",
      some "json tables"⟩, "json tables", [], rfl, rfl, rfl⟩)
  refine ⟨⟨fsA, ?_⟩, fsB, jsB, ?_⟩
  · rw [hA]; rfl
  · rw [hB]; rfl

/-- C6 (amended): the global report list is append-only and each stage
appends its whole block contiguously at its completion — so blocks appear
in stage-completion order, which the engine does not fix across the
concurrently-listening branches (see the counterexample) — and within
each enabled branch the appended block is the per-entity handles in
entity-input order followed by zero or one comparison handle. -/
theorem c6_blocks_completion_order (env : FlowEnv) (cfg : FlowConfig)
    (done : List Stage) (data : FlowData) (s : Stage)
    (done' : List Stage) (data' : FlowData)
    (hstep : FlowStep env cfg (done, data) s (done', data')) :
    (∃ block, data'.report_list = data.report_list ++ block) ∧
    (∀ mds, data.ieReturn = some (some mds) →
      (s = .secEdgar → cfg.source_sec_filings = true →
        ∃ comp, (comp = [] ∨ comp = [env.toTxt (secCorpusPath cfg.cachePath)]) ∧
          data'.report_list =
            data.report_list ++ (mds.map (secHandle env) ++ comp)) ∧
      (s = .yfinanceNews → cfg.source_yfinance_news = true →
        ∃ comp, (comp = [] ∨ comp = [env.toTxt (newsCorpusPath cfg.cachePath)]) ∧
          data'.report_list =
            data.report_list ++ (mds.map (newsHandle env) ++ comp)) ∧
      (s = .yfinanceStocks → cfg.source_yfinance_stocks = true →
        ∃ comp, (comp = [] ∨ comp = [stocksCorpusPath cfg.cachePath]) ∧
          data'.report_list =
            data.report_list ++ (mds.map (stocksTxtName env) ++ comp))) := by
  cases hstep with
  | mk hnot hdeps hrun =>
    refine ⟨runStage_report_shape env cfg s data _ hrun, ?_⟩
    intro mds hie
    refine ⟨?_, ?_, ?_⟩
    · rintro rfl hflag
      simp only [runStage, hie] at hrun
      rw [hflag] at hrun
      cases hb : sec_edgar env true data.is_comparison (some mds) cfg.cachePath
          data.fs data.report_list with
      | error e =>
        rw [hb, except_bind_error] at hrun
        exact Except.noConfusion hrun
      | ok r =>
        rw [hb, except_bind_ok, except_pure, Except.ok.injEq] at hrun
        subst hrun
        rw [sec_edgar_true_eq] at hb
        cases hfold : mds.foldlM
            (secEntityStep env (secCorpusPath cfg.cachePath)) (data.fs, []) with
        | error e =>
          rw [hfold, except_bind_error] at hb
          exact Except.noConfusion hb
        | ok folded =>
          obtain ⟨fs1, list1⟩ := folded
          rw [hfold, except_bind_ok] at hb
          have hl : list1 = mds.map (secHandle env) := by
            simpa using sec_fold_reports env _ mds data.fs [] fs1 list1 hfold
          obtain ⟨comp, hcomp, _h1, h2⟩ := secTail_shape env data.is_comparison
            cfg.cachePath data.report_list fs1 list1 r hb
          exact ⟨comp, hcomp, by rw [← hl]; exact h2⟩
    · rintro rfl hflag
      simp only [runStage, hie] at hrun
      rw [hflag] at hrun
      cases hb : yfinance_news env true data.is_comparison (some mds)
          cfg.cachePath data.fs data.report_list with
      | error e =>
        rw [hb, except_bind_error] at hrun
        exact Except.noConfusion hrun
      | ok r =>
        rw [hb, except_bind_ok, except_pure, Except.ok.injEq] at hrun
        subst hrun
        rw [yfinance_news_true_eq] at hb
        cases hfold : mds.foldlM
            (newsEntityStep env (newsCorpusPath cfg.cachePath)) (data.fs, []) with
        | error e =>
          rw [hfold, except_bind_error] at hb
          exact Except.noConfusion hb
        | ok folded =>
          obtain ⟨fs1, list1⟩ := folded
          rw [hfold, except_bind_ok] at hb
          have hl : list1 = mds.map (newsHandle env) := by
            simpa using news_fold_reports env _ mds data.fs [] fs1 list1 hfold
          obtain ⟨comp, hcomp, _h1, h2⟩ := newsTail_shape env data.is_comparison
            cfg.cachePath data.report_list fs1 list1 r hb
          exact ⟨comp, hcomp, by rw [← hl]; exact h2⟩
    · rintro rfl hflag
      simp only [runStage, hie] at hrun
      rw [hflag] at hrun
      cases hb : yfinance_stocks env true data.is_comparison (some mds)
          cfg.cachePath data.fs data.report_list with
      | error e =>
        rw [hb, except_bind_error] at hrun
        exact Except.noConfusion hrun
      | ok r =>
        rw [hb, except_bind_ok, except_pure, Except.ok.injEq] at hrun
        subst hrun
        rw [yfinance_stocks_true_eq] at hb
        cases hfold : mds.foldlM
            (stocksEntityStep env (stocksCorpusPath cfg.cachePath))
            (data.fs, [], []) with
        | error e =>
          rw [hfold, except_bind_error] at hb
          exact Except.noConfusion hb
        | ok folded =>
          obtain ⟨fs1, list1, jsons1⟩ := folded
          rw [hfold, except_bind_ok] at hb
          have hl : list1 = mds.map (stocksTxtName env) := by
            simpa using stocks_fold_reports env _ mds data.fs [] [] _ hfold
          obtain ⟨comp, hcomp, _h1, h2⟩ := stocksTail_shape env data.is_comparison
            cfg.cachePath data.report_list fs1 list1 jsons1 r hb
          exact ⟨comp, hcomp, by rw [← hl]; exact h2⟩

/-- Witness for C6 (amended): the SEC stage firing from the state after
decomposition and extraction in the ordering run appends its whole block
at completion, the per-entity handles in order plus at most one comparison
handle. -/
theorem c6_blocks_completion_order_witness :
    (∃ block, c6SecOut.report_list = c6Mid.2.report_list ++ block) ∧
    (∀ mds, c6Mid.2.ieReturn = some (some mds) →
      (Stage.secEdgar = Stage.secEdgar → c6Cfg.source_sec_filings = true →
        ∃ comp, (comp = [] ∨
            comp = [c6Env.toTxt (secCorpusPath c6Cfg.cachePath)]) ∧
          c6SecOut.report_list =
            c6Mid.2.report_list ++ (mds.map (secHandle c6Env) ++ comp)) ∧
      (Stage.secEdgar = Stage.yfinanceNews →
        c6Cfg.source_yfinance_news = true →
        ∃ comp, (comp = [] ∨
            comp = [c6Env.toTxt (newsCorpusPath c6Cfg.cachePath)]) ∧
          c6SecOut.report_list =
            c6Mid.2.report_list ++ (mds.map (newsHandle c6Env) ++ comp)) ∧
      (Stage.secEdgar = Stage.yfinanceStocks →
        c6Cfg.source_yfinance_stocks = true →
        ∃ comp, (comp = [] ∨ comp = [stocksCorpusPath c6Cfg.cachePath]) ∧
          c6SecOut.report_list =
            c6Mid.2.report_list ++ (mds.map (stocksTxtName c6Env) ++ comp))) :=
  c6_blocks_completion_order c6Env c6Cfg c6Mid.1 c6Mid.2 .secEdgar
    (c6Mid.1 ++ [.secEdgar]) c6SecOut
    (@FlowStep.mk c6Env c6Cfg c6Mid.1 c6Mid.2 c6SecOut .secEdgar
      (by decide) (by decide) rfl)

end AIStarterKit
